import Mathlib

/-!
Verification of the user-validation and file-backed CRUD workflow of the
Express backend (src/app.js, src/utils/validation.js, middlewares).

Shallow embedding conventions:
* JavaScript runtime values that can appear in a user record field are
  modelled by `JsVal`.  JS numbers are modelled as exact rationals (every
  JS number value is a dyadic rational); `NaN` is a separate constructor
  because `NaN === NaN` is false.  Absent object fields are `Option.none`,
  a field explicitly set to `undefined` is `some JsVal.undef`.
* JS strings are modelled as Lean `String` (sequences of unicode scalar
  values; `length` counts scalars).
* A user object is modelled by the three fields the code inspects
  (`id`, `name`, `email`); further fields are outside the model.
* File I/O is modelled by passing the parsed backing document explicitly:
  `disk = none` models a failing `fs.readFile`, and a handler's `written`
  field is the document handed to `fs.writeFile` (`none` = no write).
-/

/-- A JavaScript runtime value as it can occur in a user-record field. -/
inductive JsVal where
  | num (q : ℚ)
  | nan
  | str (s : String)
  | undef
  | null
  deriving DecidableEq

/-- JavaScript strict equality `===` on modelled values.  `NaN` is not
equal to anything, including itself. -/
def jsEq : JsVal → JsVal → Bool
  | .num a, .num b => decide (a = b)
  | .str a, .str b => decide (a = b)
  | .undef, .undef => true
  | .null, .null => true
  | _, _ => false

/-- The JavaScript `typeof` operator on modelled values. -/
def jsTypeof : JsVal → String
  | .num _ => "number"
  | .nan => "number"
  | .str _ => "string"
  | .undef => "undefined"
  | .null => "object"

/-- A user object, restricted to the three fields the code inspects.
`none` models an absent field. -/
structure JsUser where
  id : Option JsVal
  name : Option JsVal
  email : Option JsVal
  deriving DecidableEq

/-- Reading a possibly-absent object field yields `undefined`, as in the
destructuring `const { name, email, id } = user`. -/
def fieldOrUndef (f : Option JsVal) : JsVal := f.getD JsVal.undef

/-- One field of the object spread `{...user, ...updatedUser}`: a field
present in the update (even with value `undefined`) overrides. -/
def overrideField (a b : Option JsVal) : Option JsVal :=
  match b with
  | some v => some v
  | none => a

/-- The shallow merge `{...user, ...updatedUser}` from `app.put('/users/:id')`. -/
def mergeUser (user upd : JsUser) : JsUser :=
  ⟨overrideField user.id upd.id,
   overrideField user.name upd.name,
   overrideField user.email upd.email⟩

/-- `Object.keys(u).length === 0` for a modelled user object. -/
def userNoKeys (u : JsUser) : Bool :=
  u.id.isNone && u.name.isNone && u.email.isNone

/-! ## Decimal rendering of numbers

`String(n)` / `JSON.stringify(n)` for a JS number prints the shortest
decimal expansion that denotes the value; every JS number value (a dyadic
rational) has a finite decimal expansion.  We render a rational with
denominator of the form `2^a * 5^b` exactly. -/

/-- Little-endian base-10 digits, via structural fuel recursion (so the
kernel can evaluate it). -/
def natDigitsAux : Nat → Nat → List Nat
  | 0, _ => []
  | _ + 1, 0 => []
  | fuel + 1, n => n % 10 :: natDigitsAux fuel (n / 10)

/-- Little-endian base-10 digits of `n` (empty for `0`). -/
def natDigitsLE (n : Nat) : List Nat := natDigitsAux n n

/-- Value of a little-endian digit list. -/
def natOfDigitsLE : List Nat → Nat
  | [] => 0
  | d :: ds => d + 10 * natOfDigitsLE ds

/-- Value of a big-endian digit list. -/
def natOfBE (ds : List Nat) : Nat := ds.foldl (fun a d => a * 10 + d) 0

/-- The character for decimal digit `d`. -/
def digitCh (d : Nat) : Char := Char.ofNat (48 + d)

/-- Decimal digit denoted by a character, if any. -/
def chDigit (c : Char) : Option Nat :=
  if 48 ≤ c.toNat ∧ c.toNat ≤ 57 then some (c.toNat - 48) else none

/-- Remove factors `p` from `n` (fuel-based): returns the multiplicity of
`p` in `n` and the remaining cofactor. -/
def stripFac (p : Nat) : Nat → Nat → Nat × Nat
  | 0, n => (0, n)
  | fuel + 1, n =>
    if 2 ≤ p ∧ p ∣ n ∧ 1 ≤ n then
      let r := stripFac p fuel (n / p)
      (r.1 + 1, r.2)
    else (0, n)

/-- Whether a positive natural `d` divides a power of ten, and if so the
exponent `max a b` where `d = 2^a * 5^b`. -/
def decExp (d : Nat) : Option Nat :=
  let r2 := stripFac 2 d d
  let r5 := stripFac 5 r2.2 r2.2
  if r5.2 = 1 then some (max r2.1 r5.1) else none

/-- `q` has a finite decimal expansion (true for every JS number value). -/
def finiteDecimal (q : ℚ) : Bool := (decExp q.den).isSome

/-- Render the decimal expansion of `n / 10^k` (characters only, no sign):
the digits of `n` with a decimal point `k` places from the right, padded so
that at least one integer digit is printed. -/
def renderNat (n k : Nat) : List Char :=
  let L := natDigitsLE n
  let P := L ++ List.replicate (k + 1 - L.length) 0
  let intPart := (P.drop k).reverse.map digitCh
  let fracPart := (P.take k).reverse.map digitCh
  if k = 0 then intPart else intPart ++ '.' :: fracPart

/-- Decimal rendering of a rational with finite decimal expansion, as
produced by `String(n)` / `JSON.stringify(n)` for the corresponding JS
number. (For a rational with no finite expansion — which corresponds to no
JS number value — a placeholder digit is returned.) -/
def numToChars (q : ℚ) : List Char :=
  match decExp q.den with
  | some k =>
    let n := q.num.natAbs * (10 ^ k / q.den)
    (if q.num < 0 then ['-'] else []) ++ renderNat n k
  | none => ['0']

/-- JavaScript `String(v)` coercion on modelled values. -/
def jsToString : JsVal → String
  | .num q => ⟨numToChars q⟩
  | .nan => "NaN"
  | .str s => s
  | .undef => "undefined"
  | .null => "null"

/-! ## The validator (src/utils/validation.js) -/

/-- The class `\w` of the JS regex (ASCII word characters). -/
def isWordCharJs (c : Char) : Bool := c.isAlpha || c.isDigit || c = '_'

/-- The character class `[\w-\.]` (local part of the email regex). -/
def localChar (c : Char) : Bool := isWordCharJs c || c = '-' || c = '.'

/-- The character class `[\w-]` (domain labels and TLD of the email regex). -/
def domChar (c : Char) : Bool := isWordCharJs c || c = '-'

/-- Split a character list at every `'.'` (the resulting segments are the
maximal dot-free runs; the list is never empty). -/
def splitDot : List Char → List (List Char)
  | [] => [[]]
  | c :: cs =>
    if c = '.' then [] :: splitDot cs
    else
      match splitDot cs with
      | [] => [[c]]
      | s :: ss => (c :: s) :: ss

/-- Match of the domain part `([\w-]+\.)+X{2,4}$` of the email regex, where
`X` is the TLD character class (in the source regex, `[\w-]`).  Because
`'.'` is not in `[\w-]`, the anchored regex matches exactly when the
dot-separated segments are: at least one nonempty all-`[\w-]` label, then a
final segment of 2–4 `X` characters. -/
def matchDomainWith (tldClass : Char → Bool) (dom : List Char) : Bool :=
  let segs := splitDot dom
  decide (2 ≤ segs.length) &&
  segs.dropLast.all (fun s => !s.isEmpty && s.all domChar) &&
  (match segs.getLast? with
   | some t => t.all tldClass && decide (2 ≤ t.length) && decide (t.length ≤ 4)
   | none => false)

/-- Anchored match of `/^[\w-\.]+@(...)$/`: since `'@'` is in neither
character class, the local part must be exactly the maximal leading run of
`[\w-\.]` characters, followed by `'@'` and the domain match. -/
def emailMatchWith (tldClass : Char → Bool) (cs : List Char) : Bool :=
  let loc := cs.takeWhile localChar
  match cs.dropWhile localChar with
  | c :: dom => decide (c = '@') && !loc.isEmpty && matchDomainWith tldClass dom
  | [] => false

/-- `isValidEmail` from src/utils/validation.js: tests the coerced string
against `/^[\w-\.]+@([\w-]+\.)+[\w-]{2,4}$/`. -/
def isValidEmail (email : JsVal) : Bool :=
  emailMatchWith domChar (jsToString email).toList

/-- `isValidName` from src/utils/validation.js:
`typeof name === 'string' && name.length >= 3`. -/
def isValidName (name : JsVal) : Bool :=
  match name with
  | .str s => decide (3 ≤ s.length)
  | _ => false

/-- `isUniqueNumericId` from src/utils/validation.js:
`typeof id === 'number' && !users.some(user => user.id === id)`. -/
def isUniqueNumericId (id : JsVal) (users : List JsUser) : Bool :=
  (jsTypeof id == "number") && !(users.any fun user => jsEq (fieldOrUndef user.id) id)

/-- The result value of `validateUser`. -/
structure Validation where
  isValid : Bool
  error : Option String
  deriving DecidableEq

/-- Fixed message for a failing name check. -/
def nameErrorMsg : String := "El nombre debe tener al menos 3 caracteres."

/-- Fixed message for a failing email check. -/
def emailErrorMsg : String := "El correo electrónico no es válido."

/-- Fixed message for a failing id-uniqueness check. -/
def idErrorMsg : String := "El ID debe ser númerico y único."

/-- `validateUser(user, users, userIdBeingUpdated)` from
src/utils/validation.js.  A call that omits the third argument passes
`JsVal.undef` (JS: the parameter is `undefined`). -/
def validateUser (user : JsUser) (users : List JsUser) (userIdBeingUpdated : JsVal) :
    Validation :=
  let name := fieldOrUndef user.name
  let email := fieldOrUndef user.email
  let id := fieldOrUndef user.id
  if !isValidName name then ⟨false, some nameErrorMsg⟩
  else if !isValidEmail email then ⟨false, some emailErrorMsg⟩
  else if !jsEq id userIdBeingUpdated && !isUniqueNumericId id users then
    ⟨false, some idErrorMsg⟩
  else ⟨true, none⟩

/-! ## Path-id parsing -/

/-- JS whitespace stripped by `parseInt`. -/
def isJsSpace (c : Char) : Bool :=
  c = ' ' || c = '\t' || c = '\n' || c = '\r' || c = '\x0b' || c = '\x0c'

/-- `parseInt(s, 10)`: strip whitespace, optional sign, then the maximal
leading run of decimal digits; `NaN` when that run is empty. -/
def parseIntB10 (s : String) : JsVal :=
  let cs := s.toList.dropWhile isJsSpace
  let signed : Bool × List Char :=
    match cs with
    | '-' :: r => (true, r)
    | '+' :: r => (false, r)
    | _ => (false, cs)
  let ds := signed.2.takeWhile fun c => (chDigit c).isSome
  if ds.isEmpty then JsVal.nan
  else
    let n := natOfBE (ds.filterMap chDigit)
    JsVal.num (if signed.1 then mkRat (-(n : Int)) 1 else mkRat (n : Int) 1)

/-! ## Route handlers (src/app.js) -/

/-- The JSON body of a handler response. -/
inductive RespBody where
  | userJson (u : JsUser)
  | errJson (msg : String)
  | emptyBody
  deriving DecidableEq

/-- Outcome of one handler call: HTTP status, response body, and the
document handed to `fs.writeFile` (`none` when no write happens). -/
structure HandlerResult where
  status : Nat
  body : RespBody
  written : Option (List JsUser)
  deriving DecidableEq

/-- Message sent on a failing `fs.readFile`. -/
def readErrMsg : String := "Error con conexión de datos."

/-- Message sent by the update handler on an empty request body. -/
def noDataMsg : String := "No se recibieron datos."

/-- `app.post('/users')`: read, validate (`validateUser` without a third
argument), append, write, 201 with the new user. -/
def postUsers (newUser : JsUser) (disk : Option (List JsUser)) : HandlerResult :=
  match disk with
  | none => ⟨500, .errJson readErrMsg, none⟩
  | some user =>
    let validation := validateUser newUser user JsVal.undef
    if !validation.isValid then ⟨400, .errJson (validation.error.getD ""), none⟩
    else ⟨201, .userJson newUser, some (user ++ [newUser])⟩

/-- `app.put('/users/:id')`: empty-body check (before any file access),
read, validate with `userIdBeingUpdated = parseInt(id, 10)`, shallow-merge
onto every record whose `id === userId`, write, respond with the submitted
payload. -/
def putUsers (idSeg : String) (body : Option JsUser) (disk : Option (List JsUser)) :
    HandlerResult :=
  let userId := parseIntB10 idSeg
  match body with
  | none => ⟨500, .errJson noDataMsg, none⟩
  | some updatedUser =>
    if userNoKeys updatedUser then ⟨500, .errJson noDataMsg, none⟩
    else
      match disk with
      | none => ⟨500, .errJson readErrMsg, none⟩
      | some users =>
        let validation := validateUser updatedUser users userId
        if !validation.isValid then ⟨400, .errJson (validation.error.getD ""), none⟩
        else
          ⟨200, .userJson updatedUser,
            some (users.map fun user =>
              if jsEq (fieldOrUndef user.id) userId then mergeUser user updatedUser
              else user)⟩

/-- `app.delete('/users/:id')`: read, keep the records whose
`id !== userId`, write, 204 with empty body. -/
def deleteUsers (idSeg : String) (disk : Option (List JsUser)) : HandlerResult :=
  let userId := parseIntB10 idSeg
  match disk with
  | none => ⟨500, .errJson readErrMsg, none⟩
  | some users =>
    ⟨204, .emptyBody,
      some (users.filter fun user => !jsEq (fieldOrUndef user.id) userId)⟩

/-! ## Centralized error responder (src/middlewares/errorHandler.js) -/

/-- The fields of a forwarded JS `Error` object that the responder reads. -/
structure JsError where
  statusCode : Option Nat
  message : Option String
  stack : Option String

/-- The JSON error envelope; `stack = none` models an absent field (a
spread of `undefined` is dropped by the JSON serialization of `res.json`). -/
structure ErrorEnvelope where
  status : String
  statusCode : Nat
  message : String
  stack : Option String
  deriving DecidableEq

/-- HTTP status plus envelope produced by the responder. -/
structure ErrorResponse where
  httpStatus : Nat
  body : ErrorEnvelope
  deriving DecidableEq

/-- The centralized `errorHandler` middleware.  `err.statusCode || 500`
and `err.message || <default>` treat `0` and `''` as falsy; the `stack`
field is spread into the body only when `NODE_ENV === 'development'`. -/
def errorHandler (err : JsError) (nodeEnv : String) : ErrorResponse :=
  let statusCode :=
    match err.statusCode with
    | some n => if n = 0 then 500 else n
    | none => 500
  let message :=
    match err.message with
    | some m => if m = "" then "Ocurrió un Error inesperado" else m
    | none => "Ocurrió un Error inesperado"
  ⟨statusCode,
   ⟨"error", statusCode, message,
    if nodeEnv = "development" then err.stack else none⟩⟩

/-- The error forwarded by the deliberate `GET /error` route:
`new Error('Error intencional')` (no `statusCode`). -/
def errorRouteError (stack : Option String) : JsError :=
  ⟨none, some "Error intencional", stack⟩

/-! ## Declarative email pattern (from the specification's words)

The spec describes the accepted language as
`<word-chars-dots-hyphens>+@(<word-chars-hyphens>+\.)+<TLD>{2,4}`,
parametrized here by the TLD character class: the claim says "2–4 word
characters" (`isWordCharJs`), the source regex has `[\w-]{2,4}` (`domChar`). -/

/-- Declarative reading of the spec's email pattern: the string splits as
a nonempty local part of `[\w-\.]` characters, an `'@'`, one or more
nonempty `[\w-]` labels each followed by a dot, and a TLD of 2–4
characters of the given class. -/
def emailPatternWith (tldClass : Char → Bool) (s : String) : Prop :=
  ∃ (loc : List Char) (groups : List (List Char)) (tld : List Char),
    s.toList = loc ++ '@' :: ((groups.map fun g => g ++ ['.']).flatten ++ tld) ∧
    loc ≠ [] ∧ (∀ c ∈ loc, localChar c = true) ∧
    groups ≠ [] ∧ (∀ g ∈ groups, g ≠ [] ∧ ∀ c ∈ g, domChar c = true) ∧
    (∀ c ∈ tld, tldClass c = true) ∧ 2 ≤ tld.length ∧ tld.length ≤ 4

/-- Join segments with `'.'` between consecutive segments (left inverse of
`splitDot`). -/
def joinDots : List (List Char) → List Char
  | [] => []
  | [s] => s
  | s :: ss => s ++ '.' :: joinDots ss

/-- The rational `5.5`, i.e. the JS number `5.5` (a value of runtime type
`number` that is not an integer). -/
def fiveAndAHalf : ℚ := ⟨11, 2, by decide, by decide⟩

/-! ## The file store adapter

`saveAll` models the inline `fs.writeFile(usersFilePath,
JSON.stringify(users, null, 2), ...)` of the mutating handlers: the
pretty-printed (indent 2) JSON text of the user collection.  `loadAll`
models `JSON.parse` applied to the document text as done by every reading
handler (`none` models the exception thrown on malformed input).  User
records are flat objects of the three modelled fields, so the grammar
needs no nesting. -/

/-- Opening brace character. -/
def lbraceC : Char := Char.ofNat 123

/-- Closing brace character. -/
def rbraceC : Char := Char.ofNat 125

/-- Lowercase hexadecimal digit character. -/
def hexCh (d : Nat) : Char := Char.ofNat (if d < 10 then 48 + d else 87 + d)

/-- Value of a hexadecimal digit character. -/
def hexVal (c : Char) : Option Nat :=
  let n := c.toNat
  if 48 ≤ n ∧ n ≤ 57 then some (n - 48)
  else if 97 ≤ n ∧ n ≤ 102 then some (n - 87)
  else if 65 ≤ n ∧ n ≤ 70 then some (n - 55)
  else none

/-- `JSON.stringify` escaping of one string character: quote and backslash
get a backslash escape, control characters get their short escape or a
`\u00XX` escape, everything else is emitted verbatim. -/
def escOut (c : Char) : List Char :=
  if c = '"' then ['\\', '"']
  else if c = '\\' then ['\\', '\\']
  else if c.toNat < 32 then
    if c.toNat = 8 then ['\\', 'b']
    else if c.toNat = 9 then ['\\', 't']
    else if c.toNat = 10 then ['\\', 'n']
    else if c.toNat = 12 then ['\\', 'f']
    else if c.toNat = 13 then ['\\', 'r']
    else ['\\', 'u', '0', '0', hexCh (c.toNat / 16), hexCh (c.toNat % 16)]
  else [c]

/-- Escaped body of a JSON string literal. -/
def escConcat (cs : List Char) : List Char := (cs.map escOut).flatten

/-- A JSON string literal. -/
def renderStr (s : String) : List Char :=
  '"' :: escConcat s.toList ++ ['"']

/-- `JSON.stringify` of one field value.  `NaN` serializes as `null`;
`undefined` never reaches this function because fields holding it are
dropped at the object level. -/
def renderScalar : JsVal → List Char
  | .str s => renderStr s
  | .num q => numToChars q
  | .nan => "null".toList
  | .null => "null".toList
  | .undef => []

/-- The entry a field contributes to `JSON.stringify`'s output: absent
fields and fields holding `undefined` are dropped. -/
def fieldEntry (k : String) (f : Option JsVal) : List (String × JsVal) :=
  match f with
  | some v => if v = JsVal.undef then [] else [(k, v)]
  | none => []

/-- The serialized fields of a user object, in field order. -/
def userFields (u : JsUser) : List (String × JsVal) :=
  fieldEntry "id" u.id ++ fieldEntry "name" u.name ++ fieldEntry "email" u.email

/-- One rendered field: `"key": value`. -/
def renderField (kv : String × JsVal) : List Char :=
  renderStr kv.1 ++ ':' :: ' ' :: renderScalar kv.2

/-- Join pre-indented items with `,` + newline, as `JSON.stringify` does. -/
def commaNlJoin : List (List Char) → List Char
  | [] => []
  | [x] => x
  | x :: xs => x ++ ',' :: '\n' :: commaNlJoin xs

/-- One user object as rendered by `JSON.stringify(users, null, 2)` at
array depth: fields indented 4, closing brace indented 2. -/
def renderUser (u : JsUser) : List Char :=
  match userFields u with
  | [] => [lbraceC, rbraceC]
  | fs =>
    lbraceC :: '\n' ::
      (commaNlJoin (fs.map fun kv => List.replicate 4 ' ' ++ renderField kv) ++
       '\n' :: (List.replicate 2 ' ' ++ [rbraceC]))

/-- `saveAll`: the full document text `JSON.stringify(users, null, 2)`. -/
def saveAll (users : List JsUser) : String :=
  match users with
  | [] => "[]"
  | us =>
    ⟨'[' :: '\n' ::
      (commaNlJoin (us.map fun u => List.replicate 2 ' ' ++ renderUser u) ++
       '\n' :: [']'])⟩

/-- JSON whitespace. -/
def isWsCh (c : Char) : Bool := c = ' ' || c = '\n' || c = '\t' || c = '\r'

/-- Skip leading JSON whitespace. -/
def skipWs (cs : List Char) : List Char := cs.dropWhile isWsCh

/-- Single-character JSON escapes. -/
def escCh (c : Char) : Option Char :=
  if c = '"' then some '"'
  else if c = '\\' then some '\\'
  else if c = '/' then some '/'
  else if c = 'b' then some (Char.ofNat 8)
  else if c = 't' then some (Char.ofNat 9)
  else if c = 'n' then some (Char.ofNat 10)
  else if c = 'f' then some (Char.ofNat 12)
  else if c = 'r' then some (Char.ofNat 13)
  else none

/-- Parse the body of a JSON string literal up to the closing quote. -/
def parseStrBody : List Char → Option (List Char × List Char)
  | [] => none
  | c :: r =>
    if c = '"' then some ([], r)
    else if c = '\\' then
      match r with
      | [] => none
      | e :: r2 =>
        if e = 'u' then
          match r2 with
          | h1 :: h2 :: h3 :: h4 :: r3 =>
            match hexVal h1, hexVal h2, hexVal h3, hexVal h4 with
            | some a, some b, some c3, some d =>
              let n := ((a * 16 + b) * 16 + c3) * 16 + d
              if n.isValidChar then
                (parseStrBody r3).map fun p => (Char.ofNat n :: p.1, p.2)
              else none
            | _, _, _, _ => none
          | _ => none
        else
          match escCh e with
          | some ec => (parseStrBody r2).map fun p => (ec :: p.1, p.2)
          | none => none
    else (parseStrBody r).map fun p => (c :: p.1, p.2)

/-- Consume a maximal run of decimal digits. -/
def parseDigits : List Char → List Nat × List Char
  | [] => ([], [])
  | c :: r =>
    match chDigit c with
    | some d =>
      let p := parseDigits r
      (d :: p.1, p.2)
    | none => ([], c :: r)

/-- The rational denoted by sign, integer digits value and fraction
digits. -/
def mkQ (neg : Bool) (ipart : Nat) (frac : List Nat) : ℚ :=
  let num : Int := (ipart * 10 ^ frac.length + natOfBE frac : Nat)
  mkRat (if neg then -num else num) (10 ^ frac.length)

/-- Parse an unsigned JSON number (integer digits, optional fraction). -/
def parseNumAux (neg : Bool) (cs : List Char) : Option (ℚ × List Char) :=
  let ip := parseDigits cs
  if ip.1.isEmpty then none
  else
    match ip.2 with
    | [] => some (mkQ neg (natOfBE ip.1) [], [])
    | c :: r =>
      if c = '.' then
        let fp := parseDigits r
        if fp.1.isEmpty then none
        else some (mkQ neg (natOfBE ip.1) fp.1, fp.2)
      else some (mkQ neg (natOfBE ip.1) [], c :: r)

/-- Parse a JSON number with optional leading minus. -/
def parseNum (cs : List Char) : Option (ℚ × List Char) :=
  match cs with
  | [] => none
  | c :: r => if c = '-' then parseNumAux true r else parseNumAux false (c :: r)

/-- Parse a scalar JSON value (string, `null` or number). -/
def parseScalar (cs : List Char) : Option (JsVal × List Char) :=
  match cs with
  | [] => none
  | c :: r =>
    if c = '"' then (parseStrBody r).map fun p => (JsVal.str ⟨p.1⟩, p.2)
    else if c = 'n' then
      match r with
      | 'u' :: 'l' :: 'l' :: r2 => some (JsVal.null, r2)
      | _ => none
    else (parseNum (c :: r)).map fun p => (JsVal.num p.1, p.2)

/-- Store a parsed field into the user record (later duplicates would
overwrite, as in JS objects); keys outside the modelled three fail. -/
def applyField (u : JsUser) (k : String) (v : JsVal) : Option JsUser :=
  if k = "id" then some ⟨some v, u.name, u.email⟩
  else if k = "name" then some ⟨u.id, some v, u.email⟩
  else if k = "email" then some ⟨u.id, u.name, some v⟩
  else none

/-- Fold parsed fields into a user record. -/
def fieldsToUser : JsUser → List (String × JsVal) → Option JsUser
  | u, [] => some u
  | u, (k, v) :: fs =>
    match applyField u k v with
    | some u2 => fieldsToUser u2 fs
    | none => none

/-- Parse one `"key": value` field (leading whitespace allowed). -/
def parseField (cs : List Char) : Option ((String × JsVal) × List Char) :=
  match skipWs cs with
  | [] => none
  | c :: r =>
    if c = '"' then
      match parseStrBody r with
      | none => none
      | some (k, r2) =>
        match skipWs r2 with
        | [] => none
        | c2 :: r3 =>
          if c2 = ':' then
            (parseScalar (skipWs r3)).map fun p => ((⟨k⟩, p.1), p.2)
          else none
    else none

/-- Parse one or more comma-separated fields up to the closing brace
(fuel bounds the number of fields). -/
def parseFieldsAux : Nat → List Char → Option (List (String × JsVal) × List Char)
  | 0, _ => none
  | fuel + 1, cs =>
    match parseField cs with
    | none => none
    | some (kv, r) =>
      match skipWs r with
      | [] => none
      | c :: r2 =>
        if c = ',' then
          (parseFieldsAux fuel r2).map fun p => (kv :: p.1, p.2)
        else if c = rbraceC then some ([kv], r2)
        else none

/-- Parse a user object. -/
def parseUserObj (cs : List Char) : Option (JsUser × List Char) :=
  match skipWs cs with
  | [] => none
  | c :: r =>
    if c = lbraceC then
      match skipWs r with
      | [] => none
      | c2 :: r2 =>
        if c2 = rbraceC then some (⟨none, none, none⟩, r2)
        else
          match parseFieldsAux (r.length + 1) (c2 :: r2) with
          | none => none
          | some (fs, r3) =>
            match fieldsToUser ⟨none, none, none⟩ fs with
            | some u => some (u, r3)
            | none => none
    else none

/-- Parse one or more comma-separated user objects up to the closing
bracket (fuel bounds the number of objects). -/
def parseItemsAux : Nat → List Char → Option (List JsUser × List Char)
  | 0, _ => none
  | fuel + 1, cs =>
    match parseUserObj cs with
    | none => none
    | some (u, r) =>
      match skipWs r with
      | [] => none
      | c :: r2 =>
        if c = ',' then
          (parseItemsAux fuel r2).map fun p => (u :: p.1, p.2)
        else if c = ']' then some ([u], r2)
        else none

/-- `loadAll`: `JSON.parse` of the full backing document into a user
collection (`none` on malformed input or fields outside the model). -/
def loadAll (doc : String) : Option (List JsUser) :=
  match skipWs doc.toList with
  | [] => none
  | c :: r =>
    if c = '[' then
      match skipWs r with
      | [] => none
      | c2 :: r2 =>
        if c2 = ']' then
          if (skipWs r2).isEmpty then some [] else none
        else
          match parseItemsAux (r.length + 1) (c2 :: r2) with
          | none => none
          | some (us, r3) => if (skipWs r3).isEmpty then some us else none
    else none

/-- A field value representable in JSON: a string, `null`, or a number
with finite decimal expansion (`NaN` and `undefined` are not JSON
values — `JSON.stringify` maps them to `null` or drops the field). -/
def jsonSafeVal : JsVal → Bool
  | .num q => finiteDecimal q
  | .str _ => true
  | .null => true
  | .nan => false
  | .undef => false

/-- A JSON-representable field. -/
def jsonSafeField : Option JsVal → Bool
  | none => true
  | some v => jsonSafeVal v

/-- A JSON-representable user record. -/
def jsonSafeUser (u : JsUser) : Bool :=
  jsonSafeField u.id && jsonSafeField u.name && jsonSafeField u.email

/-- A JSON-representable collection. -/
def jsonSafe (users : List JsUser) : Bool := users.all jsonSafeUser

/-- No leading decimal digit (boundary condition after a number). -/
def noLeadDigit : List Char → Bool
  | [] => true
  | c :: _ => (chDigit c).isNone

/-- No leading dot (boundary condition after a number). -/
def noLeadDot : List Char → Bool
  | [] => true
  | c :: _ => decide (c ≠ '.')

/-- The text seen by the field-list parser inside a rendered nonempty
object: the first field unindented (the object parser has already skipped
its indentation), subsequent fields behind `,` + newline + indent, and the
closing brace behind newline + indent. -/
def fieldSeq : List (String × JsVal) → List Char → List Char
  | [], rest => rest
  | [kv], rest => renderField kv ++ '\n' :: (List.replicate 2 ' ' ++ rbraceC :: rest)
  | kv :: fs, rest => renderField kv ++ ',' :: '\n' :: (List.replicate 4 ' ' ++ fieldSeq fs rest)

/-- The text seen by the item parser inside a rendered nonempty array:
the first object unindented, subsequent objects behind `,` + newline +
indent, the closing bracket behind a newline. -/
def itemSeq : List JsUser → List Char → List Char
  | [], rest => rest
  | [u], rest => renderUser u ++ '\n' :: ']' :: rest
  | u :: us, rest => renderUser u ++ ',' :: '\n' :: (List.replicate 2 ' ' ++ itemSeq us rest)

/-! ## Express layer stack and error dispatch (src/app.js:54-374)

`app.use(errorHandler)` is registered on src/app.js:57, before every
route.  Express hands a forwarded error only to error-handling
middleware (four-argument functions) registered AFTER the layer that
raised it; when none remains, its built-in final handler answers with a
plain HTML 500 page. -/

/-- One layer of the Express stack, in registration order: a plain
request handler (a route or two/three-argument middleware), or
error-handling middleware carrying its responder. -/
inductive AppLayer where
  | handler (name : String)
  | errorWare (respond : JsError → String → ErrorResponse)

/-- The outcome of `next(err)`: the first error-handling middleware
among the remaining layers answers; if there is none, Express's
built-in final handler produces its default HTML 500 page (not a JSON
envelope). -/
inductive DispatchedError where
  | byMiddleware (r : ErrorResponse)
  | byDefaultHtml500

/-- Express error dispatch over the layers registered after the raiser. -/
def dispatchError : List AppLayer → JsError → String → DispatchedError
  | [], _, _ => .byDefaultHtml500
  | .handler _ :: rest, e, env => dispatchError rest e env
  | .errorWare f :: _, e, env => .byMiddleware (f e env)

/-- The application's stack in source registration order
(src/app.js:54-374): the centralized responder on line 57 precedes
every route, including `GET /error` on line 352. -/
def appStack : List AppLayer :=
  [ .handler "express.json",
    .handler "express.urlencoded",
    .handler "LoggerMiddleware",
    .errorWare errorHandler,
    .handler "GET /",
    .handler "GET /search",
    .handler "POST /form",
    .handler "POST /api/data",
    .handler "GET /users",
    .handler "GET /users/:id",
    .handler "POST /users",
    .handler "PUT /users/:id",
    .handler "DELETE /users/:id",
    .handler "GET /error",
    .handler "GET /db-users" ]

/-- The layers registered after a named layer: the only ones Express
scans when that layer forwards an error. -/
def layersAfter (name : String) : List AppLayer → List AppLayer
  | [] => []
  | .handler n :: rest => if n = name then rest else layersAfter name rest
  | .errorWare _ :: rest => layersAfter name rest

/-! ## Basic lemmas about the model -/

/-- Nothing is strictly equal to `NaN`. -/
theorem jsEq_nan_right (v : JsVal) : jsEq v JsVal.nan = false := by
  cases v <;> rfl

/-- A record whose `id` is not strictly equal to `NaN` is never touched by
the update handler's `map`. -/
theorem map_nan_id (users : List JsUser) (upd : JsUser) :
    (users.map fun user =>
      if jsEq (fieldOrUndef user.id) JsVal.nan then mergeUser user upd else user) =
      users := by
  induction users with
  | nil => rfl
  | cons u t ih => simp [jsEq_nan_right, ih]

/-- The delete handler's `filter` keeps every record when the parsed id is
`NaN`. -/
theorem filter_nan_id (users : List JsUser) :
    (users.filter fun user => !jsEq (fieldOrUndef user.id) JsVal.nan) = users := by
  induction users with
  | nil => rfl
  | cons u t ih => simp [jsEq_nan_right, ih]


/-! ## Digit and decimal rendering lemmas -/

/-- Digit characters decode back to their digit. -/
theorem chDigit_digitCh : ∀ d : Nat, d < 10 → chDigit (digitCh d) = some d := by decide

/-- Digit characters are not JSON structure characters. -/
theorem digitCh_facts : ∀ d : Nat, d < 10 →
    digitCh d ≠ '-' ∧ digitCh d ≠ '"' ∧ digitCh d ≠ 'n' ∧ digitCh d ≠ '.' ∧
    isWsCh (digitCh d) = false := by decide

/-- All digit-list entries are below 10. -/
theorem natDigitsAux_lt : ∀ (fuel n : Nat), ∀ d ∈ natDigitsAux fuel n, d < 10 := by
  intro fuel
  induction fuel with
  | zero =>
    intro n d hd
    simp [natDigitsAux] at hd
  | succ f ih =>
    intro n d hd
    match n with
    | 0 => simp [natDigitsAux] at hd
    | m + 1 =>
      simp only [natDigitsAux, List.mem_cons] at hd
      rcases hd with rfl | hd
      · exact Nat.mod_lt _ (by omega)
      · exact ih _ _ hd

/-- The digit list denotes the number it was computed from. -/
theorem natOfDigitsLE_natDigitsAux :
    ∀ (fuel n : Nat), n ≤ fuel → natOfDigitsLE (natDigitsAux fuel n) = n := by
  intro fuel
  induction fuel with
  | zero =>
    intro n h
    have : n = 0 := by omega
    subst this
    rfl
  | succ f ih =>
    intro n h
    match n with
    | 0 => rfl
    | m + 1 =>
      have h1 : (m + 1) / 10 ≤ f := by
        have := Nat.div_lt_self (show 0 < m + 1 by omega) (show 1 < 10 by omega)
        omega
      simp only [natDigitsAux, natOfDigitsLE]
      rw [ih _ h1]
      omega

/-- Round trip of the digit computation. -/
theorem natOfDigitsLE_natDigitsLE (n : Nat) : natOfDigitsLE (natDigitsLE n) = n :=
  natOfDigitsLE_natDigitsAux n n le_rfl

/-- Value of an appended digit list. -/
theorem natOfDigitsLE_append (a b : List Nat) :
    natOfDigitsLE (a ++ b) = natOfDigitsLE a + 10 ^ a.length * natOfDigitsLE b := by
  induction a with
  | nil => simp [natOfDigitsLE]
  | cons d t ih =>
    simp only [List.cons_append, natOfDigitsLE, List.length_cons, List.append_eq]
    rw [ih]
    ring

/-- Padding zeros contribute no value. -/
theorem natOfDigitsLE_replicate (m : Nat) : natOfDigitsLE (List.replicate m 0) = 0 := by
  induction m with
  | zero => rfl
  | succ j ih => simp [List.replicate_succ, natOfDigitsLE, ih]

/-- Big-endian reading of a reversed list is the little-endian reading. -/
theorem natOfBE_reverse (ds : List Nat) : natOfBE ds.reverse = natOfDigitsLE ds := by
  induction ds with
  | nil => rfl
  | cons d t ih =>
    simp only [List.reverse_cons, natOfBE, List.foldl_append, natOfDigitsLE,
      List.foldl_cons, List.foldl_nil] at ih ⊢
    rw [ih]
    ring

/-- The digit parser consumes exactly a rendered digit run. -/
theorem parseDigits_map :
    ∀ (ds : List Nat) (rest : List Char), (∀ d ∈ ds, d < 10) →
      noLeadDigit rest = true →
      parseDigits (ds.map digitCh ++ rest) = (ds, rest) := by
  intro ds
  induction ds with
  | nil =>
    intro rest _ hrest
    cases rest with
    | nil => rfl
    | cons c r =>
      simp only [noLeadDigit, Option.isNone_iff_eq_none] at hrest
      simp [parseDigits, hrest]
  | cons d t ih =>
    intro rest hds hrest
    have hd := hds d (by simp)
    simp only [List.map_cons, List.cons_append, parseDigits, chDigit_digitCh d hd,
      List.append_eq, ih rest (fun x hx => hds x (by simp [hx])) hrest]

/-- The padded digit list of `renderNat`. -/
def paddedDigits (n k : Nat) : List Nat :=
  natDigitsLE n ++ List.replicate (k + 1 - (natDigitsLE n).length) 0

/-- The padded digit list is long enough for the fraction cut. -/
theorem paddedDigits_length (n k : Nat) : k + 1 ≤ (paddedDigits n k).length := by
  simp only [paddedDigits, List.length_append, List.length_replicate]
  omega

/-- All padded digits are below 10. -/
theorem paddedDigits_lt (n k : Nat) : ∀ d ∈ paddedDigits n k, d < 10 := by
  intro d hd
  simp only [paddedDigits, List.mem_append] at hd
  rcases hd with hd | hd
  · exact natDigitsAux_lt n n d hd
  · rw [List.eq_of_mem_replicate hd]
    omega

/-- The padded digit list still denotes `n`. -/
theorem paddedDigits_value (n k : Nat) : natOfDigitsLE (paddedDigits n k) = n := by
  rw [paddedDigits, natOfDigitsLE_append, natOfDigitsLE_replicate,
    natOfDigitsLE_natDigitsLE]
  ring

/-- Factor-stripping is sound: `n = p^mult * cofactor` with `p`-free
cofactor. -/
theorem stripFac_spec (p : Nat) (hp : 2 ≤ p) :
    ∀ (fuel n : Nat), 1 ≤ n → n ≤ fuel →
      n = p ^ (stripFac p fuel n).1 * (stripFac p fuel n).2 ∧
      1 ≤ (stripFac p fuel n).2 ∧ ¬ p ∣ (stripFac p fuel n).2 := by
  intro fuel
  induction fuel with
  | zero =>
    intro n h1 h2
    omega
  | succ f ih =>
    intro n h1 h2
    by_cases hdvd : p ∣ n
    · have hcond : 2 ≤ p ∧ p ∣ n ∧ 1 ≤ n := ⟨hp, hdvd, h1⟩
      simp only [stripFac, if_pos hcond]
      have hp1 : 1 ≤ n / p :=
        (Nat.one_le_div_iff (by omega)).mpr (Nat.le_of_dvd (by omega) hdvd)
      have hp2 : n / p ≤ f := by
        have := Nat.div_lt_self (show 0 < n by omega) (show 1 < p by omega)
        omega
      obtain ⟨ha, hb, hc⟩ := ih (n / p) hp1 hp2
      refine ⟨?_, hb, hc⟩
      have hsplit : n = p * (n / p) := (Nat.mul_div_cancel' hdvd).symm
      calc n = p * (n / p) := hsplit
        _ = p * (p ^ (stripFac p f (n / p)).1 * (stripFac p f (n / p)).2) := by rw [← ha]
        _ = p ^ ((stripFac p f (n / p)).1 + 1) * (stripFac p f (n / p)).2 := by ring
    · have hcond : ¬(2 ≤ p ∧ p ∣ n ∧ 1 ≤ n) := by tauto
      simp only [stripFac, if_neg hcond]
      exact ⟨by simp, h1, hdvd⟩

/-- A denominator with a finite-decimal certificate divides `10^k`. -/
theorem decExp_dvd (d k : Nat) (hd : 1 ≤ d) (h : decExp d = some k) : d ∣ 10 ^ k := by
  obtain ⟨ha2, hb2, -⟩ := stripFac_spec 2 (by omega) d d hd le_rfl
  obtain ⟨ha5, hb5, -⟩ :=
    stripFac_spec 5 (by omega) (stripFac 2 d d).2 (stripFac 2 d d).2 hb2 le_rfl
  simp only [decExp] at h
  by_cases h1 : (stripFac 5 (stripFac 2 d d).2 (stripFac 2 d d).2).2 = 1
  · rw [if_pos h1] at h
    injection h with h
    subst h
    rw [h1, mul_one] at ha5
    rw [show (10:Nat) = 2 * 5 from rfl, Nat.mul_pow]
    conv_lhs => rw [ha2, ha5]
    exact mul_dvd_mul
      (pow_dvd_pow 2 (le_max_left _ _))
      (pow_dvd_pow 5 (le_max_right _ _))
  · rw [if_neg h1] at h
    cases h

/-- A scaled integer witness reconstructs the rational. -/
theorem mkRat_of_scaled (q : ℚ) (k N : Nat)
    (h : N * q.den = q.num.natAbs * 10 ^ k) :
    mkRat (if q.num < 0 then -(N : Int) else (N : Int)) (10 ^ k) = q := by
  have hden : (q.den : ℚ) ≠ 0 := Nat.cast_ne_zero.mpr q.den_nz
  have hQ : (N : ℚ) * (q.den : ℚ) = (q.num.natAbs : ℚ) * (10 : ℚ) ^ k := by
    exact_mod_cast h
  have hq : (q.num : ℚ) = q * (q.den : ℚ) := by
    have h0 : (q.num : ℚ) / (q.den : ℚ) * (q.den : ℚ) = q * (q.den : ℚ) :=
      congrArg (fun x => x * (q.den : ℚ)) (Rat.num_div_den q)
    rwa [div_mul_cancel₀ _ hden] at h0
  rw [Rat.mkRat_eq_div]
  by_cases hneg : q.num < 0
  · rw [if_pos hneg]
    have hcast := congrArg (fun z : ℤ => (z : ℚ))
      (Int.ofNat_natAbs_of_nonpos (le_of_lt hneg))
    simp only [Int.cast_natCast, Int.cast_neg] at hcast
    rw [div_eq_iff (show ((10 ^ k : ℕ) : ℚ) ≠ 0 by positivity)]
    push_cast
    rw [hcast, hq] at hQ
    have h3 : (N : ℚ) * q.den = (-(q * (10 : ℚ) ^ k)) * q.den := by
      rw [hQ]
      ring
    have h4 := mul_right_cancel₀ hden h3
    rw [h4]
    ring
  · rw [if_neg hneg]
    have hcast := congrArg (fun z : ℤ => (z : ℚ))
      (Int.natAbs_of_nonneg (not_lt.mp hneg))
    simp only [Int.cast_natCast] at hcast
    rw [div_eq_iff (show ((10 ^ k : ℕ) : ℚ) ≠ 0 by positivity)]
    push_cast
    rw [hcast, hq] at hQ
    have h3 : (N : ℚ) * q.den = (q * (10 : ℚ) ^ k) * q.den := by
      rw [hQ]
      ring
    exact mul_right_cancel₀ hden h3

/-- Integer rendering: all digits, no decimal point. -/
theorem renderNat_zero (n : Nat) :
    renderNat n 0 = (paddedDigits n 0).reverse.map digitCh := by
  simp [renderNat, paddedDigits]

/-- Fractional rendering: integer digits, point, `k` fraction digits. -/
theorem renderNat_pos (n k : Nat) (hk : k ≠ 0) :
    renderNat n k = ((paddedDigits n k).drop k).reverse.map digitCh ++
      '.' :: ((paddedDigits n k).take k).reverse.map digitCh := by
  simp [renderNat, paddedDigits, hk]

/-- The integer digit run of a rendering is never empty. -/
theorem paddedDigits_drop_ne_nil (n k : Nat) : (paddedDigits n k).drop k ≠ [] := by
  have h := paddedDigits_length n k
  intro h0
  have h1 := congrArg List.length h0
  simp only [List.length_drop, List.length_nil] at h1
  omega

/-- Value form of `mkQ` with no fraction digits. -/
theorem mkQ_nil (neg : Bool) (A : Nat) :
    mkQ neg A [] = mkRat (if neg then -(A : Int) else (A : Int)) (10 ^ (0 : Nat)) := by
  have h : (A * 10 ^ ([] : List Nat).length + natOfBE [] : Nat) = A := by
    simp [natOfBE]
  simp only [mkQ]
  rw [h]
  rfl

/-- The unsigned number parser inverts `renderNat`. -/
theorem parseNumAux_renderNat (neg : Bool) (n k : Nat) (rest : List Char)
    (h1 : noLeadDigit rest = true) (h2 : noLeadDot rest = true) :
    parseNumAux neg (renderNat n k ++ rest) =
      some (mkRat (if neg then -(n : Int) else (n : Int)) (10 ^ k), rest) := by
  have hplt := paddedDigits_lt n k
  have hpval := paddedDigits_value n k
  have hplen := paddedDigits_length n k
  by_cases hk : k = 0
  · subst hk
    rw [renderNat_zero]
    have hne : (paddedDigits n 0).reverse ≠ [] := by
      intro h0
      have h3 := paddedDigits_drop_ne_nil n 0
      simp only [List.drop_zero] at h3
      exact h3 (by simpa using h0)
    have hval : natOfBE (paddedDigits n 0).reverse = n := by
      rw [natOfBE_reverse, hpval]
    have hds : ∀ d ∈ (paddedDigits n 0).reverse, d < 10 :=
      fun d hd => hplt d (List.mem_reverse.mp hd)
    generalize hgen : (paddedDigits n 0).reverse = ds at hne hval hds
    have hpd := parseDigits_map ds rest hds h1
    have hvq : mkQ neg (natOfBE ds) [] =
        mkRat (if neg then -(n : Int) else (n : Int)) (10 ^ (0 : Nat)) := by
      rw [mkQ_nil, hval]
    cases rest with
    | nil =>
      simp only [List.append_nil] at hpd
      simp [parseNumAux, hpd, hne, hvq]
    | cons c r =>
      have hc : c ≠ '.' := by
        simp only [noLeadDot, decide_eq_true_eq] at h2
        exact h2
      simp [parseNumAux, hpd, hne, hvq, hc]
  · rw [renderNat_pos n k hk]
    have hne1 : ((paddedDigits n k).drop k).reverse ≠ [] := by
      intro h0
      exact paddedDigits_drop_ne_nil n k (by simpa using h0)
    have hds1 : ∀ d ∈ ((paddedDigits n k).drop k).reverse, d < 10 :=
      fun d hd => hplt d (List.mem_of_mem_drop (List.mem_reverse.mp hd))
    have hds2 : ∀ d ∈ ((paddedDigits n k).take k).reverse, d < 10 :=
      fun d hd => hplt d (List.mem_of_mem_take (List.mem_reverse.mp hd))
    have hlen2 : ((paddedDigits n k).take k).reverse.length = k := by
      simp only [List.length_reverse, List.length_take]
      omega
    have hnum : natOfBE (((paddedDigits n k).take k).reverse) +
        10 ^ k * natOfBE (((paddedDigits n k).drop k).reverse) = n := by
      rw [natOfBE_reverse, natOfBE_reverse]
      have h5 := natOfDigitsLE_append ((paddedDigits n k).take k) ((paddedDigits n k).drop k)
      rw [List.take_append_drop, hpval, List.length_take] at h5
      have hmin : min k (paddedDigits n k).length = k := by omega
      rw [hmin] at h5
      exact h5.symm
    generalize hg1 : ((paddedDigits n k).drop k).reverse = dsI at hne1 hds1 hnum
    generalize hg2 : ((paddedDigits n k).take k).reverse = dsF at hds2 hlen2 hnum
    have hne2 : dsF ≠ [] := by
      intro h0
      rw [h0] at hlen2
      simp at hlen2
      omega
    have hpd1 := parseDigits_map dsI ('.' :: (dsF.map digitCh ++ rest)) hds1 rfl
    have hpd2 := parseDigits_map dsF rest hds2 h1
    have hassoc : (dsI.map digitCh ++ '.' :: dsF.map digitCh) ++ rest =
        dsI.map digitCh ++ ('.' :: (dsF.map digitCh ++ rest)) := by
      simp
    rw [hassoc]
    have hvq : mkQ neg (natOfBE dsI) dsF =
        mkRat (if neg then -(n : Int) else (n : Int)) (10 ^ k) := by
      have h7 : (natOfBE dsI * 10 ^ dsF.length + natOfBE dsF : Nat) = n := by
        rw [hlen2]
        have : natOfBE dsI * 10 ^ k = 10 ^ k * natOfBE dsI := by ring
        omega
      simp only [mkQ]
      rw [h7, hlen2]
    simp [parseNumAux, hpd1, hne1, hpd2, hne2, hvq]

/-- The rendering of `n / 10^k` starts with a digit character. -/
theorem renderNat_head (n k : Nat) :
    ∃ (d : Nat) (tl : List Char), d < 10 ∧ renderNat n k = digitCh d :: tl := by
  cases hdp : ((paddedDigits n k).drop k).reverse with
  | nil => exact absurd (by simpa using hdp) (paddedDigits_drop_ne_nil n k)
  | cons a tl2 =>
    have hmem : a ∈ paddedDigits n k := by
      have h0 : a ∈ ((paddedDigits n k).drop k).reverse := by
        rw [hdp]
        simp
      exact List.mem_of_mem_drop (List.mem_reverse.mp h0)
    have ha : a < 10 := paddedDigits_lt n k a hmem
    by_cases hk : k = 0
    · subst hk
      refine ⟨a, tl2.map digitCh, ha, ?_⟩
      rw [renderNat_zero]
      simp only [List.drop_zero] at hdp
      rw [hdp]
      simp
    · refine ⟨a, tl2.map digitCh ++
        '.' :: ((paddedDigits n k).take k).reverse.map digitCh, ha, ?_⟩
      rw [renderNat_pos n k hk, hdp]
      simp

/-- The rendering of a number starts with a digit or a minus sign — in
particular not with a quote, an `n`, or whitespace. -/
theorem numToChars_head (q : ℚ) :
    ∃ (c : Char) (tl : List Char), numToChars q = c :: tl ∧
      c ≠ '"' ∧ c ≠ 'n' ∧ isWsCh c = false := by
  cases hd : decExp q.den with
  | none => exact ⟨'0', [], by simp [numToChars, hd], by decide, by decide, by decide⟩
  | some k =>
    obtain ⟨d, tl2, hd10, hrn⟩ := renderNat_head (q.num.natAbs * (10 ^ k / q.den)) k
    have hfacts := digitCh_facts d hd10
    by_cases hneg : q.num < 0
    · refine ⟨'-', renderNat (q.num.natAbs * (10 ^ k / q.den)) k, ?_,
        by decide, by decide, by decide⟩
      simp [numToChars, hd, hneg]
    · refine ⟨digitCh d, tl2, ?_, hfacts.2.1, hfacts.2.2.1, hfacts.2.2.2.2⟩
      simp [numToChars, hd, hneg, hrn]

/-- The number parser inverts `numToChars` for finite-decimal rationals. -/
theorem parseNum_numToChars (q : ℚ) (k : Nat) (rest : List Char)
    (hk : decExp q.den = some k) (h1 : noLeadDigit rest = true)
    (h2 : noLeadDot rest = true) :
    parseNum (numToChars q ++ rest) = some (q, rest) := by
  have hdvd : q.den ∣ 10 ^ k :=
    decExp_dvd q.den k (Nat.one_le_iff_ne_zero.mpr q.den_nz) hk
  have hN : (q.num.natAbs * (10 ^ k / q.den)) * q.den = q.num.natAbs * 10 ^ k := by
    rw [mul_assoc, Nat.div_mul_cancel hdvd]
  have hq := mkRat_of_scaled q k (q.num.natAbs * (10 ^ k / q.den)) hN
  by_cases hneg : q.num < 0
  · have hren : numToChars q = '-' :: renderNat (q.num.natAbs * (10 ^ k / q.den)) k := by
      simp [numToChars, hk, hneg]
    have hstep : parseNumAux true (renderNat (q.num.natAbs * (10 ^ k / q.den)) k ++ rest) =
        some (mkRat (-((q.num.natAbs * (10 ^ k / q.den) : Nat) : Int)) (10 ^ k), rest) :=
      parseNumAux_renderNat true _ k rest h1 h2
    rw [if_pos hneg] at hq
    rw [hren]
    simp only [List.cons_append, parseNum]
    rw [if_pos trivial, hstep, hq]
  · have hren : numToChars q = renderNat (q.num.natAbs * (10 ^ k / q.den)) k := by
      simp [numToChars, hk, hneg]
    obtain ⟨d, tl2, hd10, hrn⟩ := renderNat_head (q.num.natAbs * (10 ^ k / q.den)) k
    have hstep : parseNumAux false (renderNat (q.num.natAbs * (10 ^ k / q.den)) k ++ rest) =
        some (mkRat (((q.num.natAbs * (10 ^ k / q.den) : Nat) : Int)) (10 ^ k), rest) :=
      parseNumAux_renderNat false _ k rest h1 h2
    rw [if_neg hneg] at hq
    rw [hren, hrn]
    rw [hrn] at hstep
    have hdash : digitCh d ≠ '-' := (digitCh_facts d hd10).1
    simp only [List.cons_append, parseNum]
    rw [if_neg hdash]
    rw [show digitCh d :: (tl2 ++ rest) = (digitCh d :: tl2) ++ rest from rfl, hstep, hq]

/-! ## String literal round trip -/

/-- Hex digit characters decode back to their value. -/
theorem hexVal_hexCh : ∀ m : Nat, m < 16 → hexVal (hexCh m) = some m := by decide

/-- The string-body parser on a closing quote. -/
theorem parseStrBody_quote (X : List Char) : parseStrBody ('"' :: X) = some ([], X) := by
  conv_lhs => rw [parseStrBody.eq_def]
  simp

/-- The string-body parser on a raw (unescaped) character. -/
theorem parseStrBody_raw (c : Char) (h1 : c ≠ '"') (h2 : c ≠ '\\') (X : List Char) :
    parseStrBody (c :: X) = (parseStrBody X).map fun p => (c :: p.1, p.2) := by
  conv_lhs => rw [parseStrBody.eq_def]
  simp [h1, h2]

/-- The string-body parser on a single-character escape. -/
theorem parseStrBody_shortEsc (e ec : Char) (he : escCh e = some ec) (hu : e ≠ 'u')
    (X : List Char) :
    parseStrBody ('\\' :: e :: X) = (parseStrBody X).map fun p => (ec :: p.1, p.2) := by
  conv_lhs => rw [parseStrBody.eq_def]
  simp [hu, he]

/-- The string-body parser on a `\u00XX` escape. -/
theorem parseStrBody_uEsc (x y : Char) (a b : Nat) (hx : hexVal x = some a)
    (hy : hexVal y = some b) (hvalid : (a * 16 + b).isValidChar) (X : List Char) :
    parseStrBody ('\\' :: 'u' :: '0' :: '0' :: x :: y :: X) =
      (parseStrBody X).map fun p => (Char.ofNat (a * 16 + b) :: p.1, p.2) := by
  conv_lhs => rw [parseStrBody.eq_def]
  simp [hx, hy, hvalid, show hexVal '0' = some 0 from by decide]

/-- The string-body parser inverts the `JSON.stringify` escaping. -/
theorem parseStrBody_escConcat :
    ∀ (cs rest : List Char),
      parseStrBody (escConcat cs ++ '"' :: rest) = some (cs, rest) := by
  intro cs
  induction cs with
  | nil =>
    intro rest
    simp only [escConcat, List.map_nil, List.flatten_nil, List.nil_append]
    exact parseStrBody_quote rest
  | cons c t ih =>
    intro rest
    have htail := ih rest
    have hesc0 : escConcat (c :: t) = escOut c ++ escConcat t := by
      simp [escConcat]
    rw [hesc0, List.append_assoc]
    by_cases h1 : c = '"'
    · subst h1
      have he : escOut '"' = ['\\', '"'] := by decide
      rw [he]
      simp only [List.cons_append, List.nil_append]
      rw [parseStrBody_shortEsc '"' '"' (by decide) (by decide), htail]
      rfl
    · by_cases h2 : c = '\\'
      · subst h2
        have he : escOut '\\' = ['\\', '\\'] := by decide
        rw [he]
        simp only [List.cons_append, List.nil_append]
        rw [parseStrBody_shortEsc '\\' '\\' (by decide) (by decide), htail]
        rfl
      · by_cases h3 : c.toNat < 32
        · by_cases h8 : c.toNat = 8
          · have hc : c = Char.ofNat 8 := by rw [← Char.ofNat_toNat c, h8]
            subst hc
            have he : escOut (Char.ofNat 8) = ['\\', 'b'] := by decide
            rw [he]
            simp only [List.cons_append, List.nil_append]
            rw [parseStrBody_shortEsc 'b' (Char.ofNat 8) (by decide) (by decide), htail]
            rfl
          · by_cases h9 : c.toNat = 9
            · have hc : c = Char.ofNat 9 := by rw [← Char.ofNat_toNat c, h9]
              subst hc
              have he : escOut (Char.ofNat 9) = ['\\', 't'] := by decide
              rw [he]
              simp only [List.cons_append, List.nil_append]
              rw [parseStrBody_shortEsc 't' (Char.ofNat 9) (by decide) (by decide), htail]
              rfl
            · by_cases h10 : c.toNat = 10
              · have hc : c = Char.ofNat 10 := by rw [← Char.ofNat_toNat c, h10]
                subst hc
                have he : escOut (Char.ofNat 10) = ['\\', 'n'] := by decide
                rw [he]
                simp only [List.cons_append, List.nil_append]
                rw [parseStrBody_shortEsc 'n' (Char.ofNat 10) (by decide) (by decide), htail]
                rfl
              · by_cases h12 : c.toNat = 12
                · have hc : c = Char.ofNat 12 := by rw [← Char.ofNat_toNat c, h12]
                  subst hc
                  have he : escOut (Char.ofNat 12) = ['\\', 'f'] := by decide
                  rw [he]
                  simp only [List.cons_append, List.nil_append]
                  rw [parseStrBody_shortEsc 'f' (Char.ofNat 12) (by decide) (by decide), htail]
                  rfl
                · by_cases h13 : c.toNat = 13
                  · have hc : c = Char.ofNat 13 := by rw [← Char.ofNat_toNat c, h13]
                    subst hc
                    have he : escOut (Char.ofNat 13) = ['\\', 'r'] := by decide
                    rw [he]
                    simp only [List.cons_append, List.nil_append]
                    rw [parseStrBody_shortEsc 'r' (Char.ofNat 13) (by decide) (by decide), htail]
                    rfl
                  · have hesc2 : escOut c = ['\\', 'u', '0', '0',
                        hexCh (c.toNat / 16), hexCh (c.toNat % 16)] := by
                      simp only [escOut]
                      rw [if_neg h1, if_neg h2, if_pos h3, if_neg h8, if_neg h9,
                        if_neg h10, if_neg h12, if_neg h13]
                    rw [hesc2]
                    simp only [List.cons_append, List.nil_append]
                    have hx := hexVal_hexCh (c.toNat / 16) (by omega)
                    have hy := hexVal_hexCh (c.toNat % 16) (by omega)
                    have hvalid : (c.toNat / 16 * 16 + c.toNat % 16).isValidChar := by
                      rw [show c.toNat / 16 * 16 + c.toNat % 16 = c.toNat from by omega]
                      exact Or.inl (by omega)
                    rw [parseStrBody_uEsc _ _ _ _ hx hy hvalid, htail]
                    rw [show Char.ofNat (c.toNat / 16 * 16 + c.toNat % 16) = c from by
                      rw [show c.toNat / 16 * 16 + c.toNat % 16 = c.toNat from by omega,
                        Char.ofNat_toNat]]
                    rfl
        · have hesc2 : escOut c = [c] := by
            simp [escOut, h1, h2, h3]
          rw [hesc2]
          simp only [List.cons_append, List.nil_append]
          rw [parseStrBody_raw c h1 h2, htail]
          rfl

/-- A rendered scalar starts with a non-whitespace character. -/
theorem renderScalar_head (v : JsVal) (hv : jsonSafeVal v = true) :
    ∃ (c : Char) (tl : List Char), renderScalar v = c :: tl ∧ isWsCh c = false := by
  cases v with
  | str s =>
    exact ⟨'"', escConcat s.toList ++ ['"'], by simp [renderScalar, renderStr], by decide⟩
  | num q =>
    obtain ⟨c, tl, hh, _, _, hws⟩ := numToChars_head q
    exact ⟨c, tl, hh, hws⟩
  | null => exact ⟨'n', ['u', 'l', 'l'], rfl, by decide⟩
  | nan => simp [jsonSafeVal] at hv
  | undef => simp [jsonSafeVal] at hv

/-- The scalar parser inverts the scalar rendering. -/
theorem parseScalar_renderScalar (v : JsVal) (rest : List Char)
    (hv : jsonSafeVal v = true) (h1 : noLeadDigit rest = true)
    (h2 : noLeadDot rest = true) :
    parseScalar (renderScalar v ++ rest) = some (v, rest) := by
  cases v with
  | str s =>
    have hshape : renderScalar (JsVal.str s) ++ rest =
        '"' :: (escConcat s.toList ++ '"' :: rest) := by
      simp [renderScalar, renderStr]
    rw [hshape]
    simp only [parseScalar]
    rw [if_pos trivial, parseStrBody_escConcat s.toList rest]
    have hmk : (⟨s.toList⟩ : String) = s := by
      cases s
      rfl
    simp [hmk]
  | num q =>
    have hv2 : (decExp q.den).isSome = true := hv
    obtain ⟨k, hk⟩ := Option.isSome_iff_exists.mp hv2
    obtain ⟨c, tl, hhead, hq1, hq2, _⟩ := numToChars_head q
    have hpn := parseNum_numToChars q k rest hk h1 h2
    have hshape : renderScalar (JsVal.num q) = numToChars q := rfl
    rw [hshape, hhead]
    simp only [List.cons_append, parseScalar]
    rw [if_neg hq1, if_neg hq2]
    rw [show c :: (tl ++ rest) = (c :: tl) ++ rest from rfl, ← hhead, hpn]
    rfl
  | null =>
    have hshape : renderScalar JsVal.null = ['n', 'u', 'l', 'l'] := rfl
    rw [hshape]
    simp [parseScalar]
  | nan => simp [jsonSafeVal] at hv
  | undef => simp [jsonSafeVal] at hv

/-! ## Field and object round trip -/

/-- Skipping whitespace ignores a whitespace prefix. -/
theorem skipWs_append_ws (w cs : List Char) (hw : ∀ c ∈ w, isWsCh c = true) :
    skipWs (w ++ cs) = skipWs cs := by
  induction w with
  | nil => simp
  | cons a t ih =>
    simp only [List.cons_append, skipWs, List.dropWhile_cons, hw a (by simp)]
    exact ih fun c hc => hw c (by simp [hc])

/-- Skipping whitespace stops at a non-whitespace character. -/
theorem skipWs_cons_not (c : Char) (cs : List Char) (hc : isWsCh c = false) :
    skipWs (c :: cs) = c :: cs := by
  simp [skipWs, List.dropWhile_cons, hc]

/-- A newline followed by spaces is all whitespace. -/
theorem ws_nl_rep (n : Nat) : ∀ c ∈ '\n' :: List.replicate n ' ', isWsCh c = true := by
  intro c hc
  rcases List.mem_cons.mp hc with rfl | hc
  · decide
  · rw [List.eq_of_mem_replicate hc]
    decide

/-- The field parser inverts one rendered field, behind any whitespace. -/
theorem parseField_render (w : List Char) (k : String) (v : JsVal) (rest : List Char)
    (hw : ∀ c ∈ w, isWsCh c = true) (hv : jsonSafeVal v = true)
    (h1 : noLeadDigit rest = true) (h2 : noLeadDot rest = true) :
    parseField (w ++ (renderField (k, v) ++ rest)) = some ((k, v), rest) := by
  obtain ⟨c0, tl0, hsc, hws0⟩ := renderScalar_head v hv
  have hshape : w ++ (renderField (k, v) ++ rest) =
      w ++ ('"' :: (escConcat k.toList ++ '"' :: (':' :: (' ' :: (renderScalar v ++ rest))))) := by
    simp [renderField, renderStr]
  rw [hshape]
  simp only [parseField]
  rw [skipWs_append_ws w _ hw, skipWs_cons_not '"' _ (by decide)]
  simp only [parseStrBody_escConcat]
  rw [skipWs_cons_not ':' _ (by decide)]
  simp only [if_pos trivial]
  have hsk : skipWs (' ' :: (renderScalar v ++ rest)) = renderScalar v ++ rest := by
    have h0 : skipWs (' ' :: (renderScalar v ++ rest)) = skipWs (renderScalar v ++ rest) := by
      simp only [skipWs, List.dropWhile_cons, show isWsCh ' ' = true from by decide, if_true]
    rw [h0, hsc, List.cons_append, skipWs_cons_not c0 _ hws0, ← List.cons_append, ← hsc]
  rw [hsk, parseScalar_renderScalar v rest hv h1 h2]
  have hmk : (⟨k.toList⟩ : String) = k := by
    cases k
    rfl
  simp [hmk]

/-- A JSON-safe field's serialized entry (no `undefined` drop needed). -/
theorem fieldEntry_safe (k : String) (f : Option JsVal) (hf : jsonSafeField f = true) :
    fieldEntry k f = match f with | some v => [(k, v)] | none => [] := by
  cases f with
  | none => rfl
  | some v =>
    have hne : v ≠ JsVal.undef := by
      intro h
      subst h
      simp [jsonSafeField, jsonSafeVal] at hf
    simp [fieldEntry, hne]

/-- Values of the serialized fields of a JSON-safe record are JSON-safe. -/
theorem userFields_safe (u : JsUser) (hu : jsonSafeUser u = true) :
    ∀ kv ∈ userFields u, jsonSafeVal kv.2 = true := by
  obtain ⟨oi, onm, oe⟩ := u
  simp only [jsonSafeUser, Bool.and_eq_true] at hu
  obtain ⟨⟨hi, hn⟩, he⟩ := hu
  have hgen : ∀ (k : String) (f : Option JsVal), jsonSafeField f = true →
      ∀ kv ∈ fieldEntry k f, jsonSafeVal kv.2 = true := by
    intro k f hf kv hkv
    rw [fieldEntry_safe k f hf] at hkv
    cases f with
    | none => simp at hkv
    | some v =>
      simp at hkv
      rw [hkv]
      exact hf
  intro kv hkv
  simp only [userFields, List.mem_append] at hkv
  rcases hkv with (hkv | hkv) | hkv
  · exact hgen "id" oi hi kv hkv
  · exact hgen "name" onm hn kv hkv
  · exact hgen "email" oe he kv hkv

/-- A record serializes to at most three fields. -/
theorem userFields_length (u : JsUser) : (userFields u).length ≤ 3 := by
  obtain ⟨oi, onm, oe⟩ := u
  have hgen : ∀ (k : String) (f : Option JsVal), (fieldEntry k f).length ≤ 1 := by
    intro k f
    cases f with
    | none => simp [fieldEntry]
    | some v =>
      by_cases hv : v = JsVal.undef <;> simp [fieldEntry, hv]
  have h1 := hgen "id" oi
  have h2 := hgen "name" onm
  have h3 := hgen "email" oe
  simp only [userFields, List.length_append]
  omega

/-- Only the all-absent record serializes to an empty field list. -/
theorem userFields_nil (u : JsUser) (hu : jsonSafeUser u = true)
    (h : userFields u = []) : u = ⟨none, none, none⟩ := by
  obtain ⟨oi, onm, oe⟩ := u
  simp only [jsonSafeUser, Bool.and_eq_true] at hu
  obtain ⟨⟨hi, hn⟩, he⟩ := hu
  simp only [userFields, List.append_eq_nil] at h
  obtain ⟨⟨h1, h2⟩, h3⟩ := h
  rw [fieldEntry_safe "id" oi hi] at h1
  rw [fieldEntry_safe "name" onm hn] at h2
  rw [fieldEntry_safe "email" oe he] at h3
  cases oi with
  | some v => simp at h1
  | none =>
    cases onm with
    | some v => simp at h2
    | none =>
      cases oe with
      | some v => simp at h3
      | none => rfl

/-- Folding the serialized fields back rebuilds the record. -/
theorem fieldsToUser_userFields (u : JsUser) (hu : jsonSafeUser u = true) :
    fieldsToUser ⟨none, none, none⟩ (userFields u) = some u := by
  obtain ⟨oi, onm, oe⟩ := u
  simp only [jsonSafeUser, Bool.and_eq_true] at hu
  obtain ⟨⟨hi, hn⟩, he⟩ := hu
  have e1 := fieldEntry_safe "id" oi hi
  have e2 := fieldEntry_safe "name" onm hn
  have e3 := fieldEntry_safe "email" oe he
  rcases oi with _ | vi <;> rcases onm with _ | vn <;> rcases oe with _ | ve <;>
    simp only [] at e1 e2 e3 <;>
    simp only [userFields, e1, e2, e3, List.nil_append, List.append_nil,
      List.cons_append, List.singleton_append] <;>
    rfl

/-- Ventilating a rendered field list into the `fieldSeq` shape. -/
theorem fieldsJoin_eq :
    ∀ (fs : List (String × JsVal)) (rest : List Char), fs ≠ [] →
      commaNlJoin (fs.map fun kv => List.replicate 4 ' ' ++ renderField kv) ++
        '\n' :: (List.replicate 2 ' ' ++ rbraceC :: rest) =
      List.replicate 4 ' ' ++ fieldSeq fs rest := by
  intro fs
  induction fs with
  | nil => intro rest h; exact absurd rfl h
  | cons kv fs ih =>
    intro rest _
    cases fs with
    | nil => simp [commaNlJoin, fieldSeq]
    | cons kv2 fs2 =>
      have hih := ih rest (by simp)
      simp only [List.map_cons, commaNlJoin, fieldSeq, List.append_assoc,
        List.cons_append] at hih ⊢
      rw [hih]

/-- The field-list parser inverts a rendered nonempty field list, behind
any whitespace. -/
theorem parseFieldsAux_spec :
    ∀ (fs : List (String × JsVal)) (fuel : Nat) (w rest : List Char),
      (∀ c ∈ w, isWsCh c = true) → fs ≠ [] → fs.length ≤ fuel →
      (∀ kv ∈ fs, jsonSafeVal kv.2 = true) →
      parseFieldsAux fuel (w ++ fieldSeq fs rest) = some (fs, rest) := by
  intro fs
  induction fs with
  | nil => intro fuel w rest _ hne; exact absurd rfl hne
  | cons kv fs ih =>
    intro fuel w rest hw _ hlen hsafe
    obtain ⟨k, v⟩ := kv
    cases fuel with
    | zero => simp at hlen
    | succ f =>
      cases fs with
      | nil =>
        simp only [fieldSeq, parseFieldsAux]
        have hpf := parseField_render w k v
          ('\n' :: (List.replicate 2 ' ' ++ rbraceC :: rest)) hw
          (hsafe (k, v) (by simp)) rfl rfl
        have hsw : skipWs ('\n' :: (List.replicate 2 ' ' ++ rbraceC :: rest)) =
            rbraceC :: rest := by
          have h0 := skipWs_append_ws ('\n' :: List.replicate 2 ' ') (rbraceC :: rest)
            (ws_nl_rep 2)
          rw [show ('\n' :: List.replicate 2 ' ') ++ (rbraceC :: rest) =
            '\n' :: (List.replicate 2 ' ' ++ rbraceC :: rest) from by simp] at h0
          rw [h0, skipWs_cons_not rbraceC _ (by decide)]
        simp only [hpf, hsw]
        simp only [if_neg (show ¬rbraceC = ',' by decide)]
        rfl
      | cons kv2 fs2 =>
        simp only [fieldSeq, parseFieldsAux]
        have hpf := parseField_render w k v
          (',' :: '\n' :: (List.replicate 4 ' ' ++ fieldSeq (kv2 :: fs2) rest)) hw
          (hsafe (k, v) (by simp)) rfl rfl
        have hsw := skipWs_cons_not ','
          ('\n' :: (List.replicate 4 ' ' ++ fieldSeq (kv2 :: fs2) rest)) (by decide)
        simp only [hpf, hsw, if_pos rfl]
        have hih := ih f ('\n' :: List.replicate 4 ' ') rest (ws_nl_rep 4) (by simp)
          (by simp at hlen ⊢; omega) (fun kv hkv => hsafe kv (by simp [hkv]))
        rw [show '\n' :: (List.replicate 4 ' ' ++ fieldSeq (kv2 :: fs2) rest) =
          ('\n' :: List.replicate 4 ' ') ++ fieldSeq (kv2 :: fs2) rest from rfl]
        rw [hih]
        rfl

/-- The object parser inverts a rendered user object, behind any
whitespace. -/
theorem parseUserObj_render (w : List Char) (u : JsUser) (rest : List Char)
    (hw : ∀ c ∈ w, isWsCh c = true) (hu : jsonSafeUser u = true) :
    parseUserObj (w ++ (renderUser u ++ rest)) = some (u, rest) := by
  cases hfs : userFields u with
  | nil =>
    have hu0 : u = ⟨none, none, none⟩ := userFields_nil u hu hfs
    have hru : renderUser u = [lbraceC, rbraceC] := by
      simp [renderUser, hfs]
    rw [hru]
    simp only [parseUserObj]
    rw [skipWs_append_ws w _ hw,
      show [lbraceC, rbraceC] ++ rest = lbraceC :: (rbraceC :: rest) from rfl,
      skipWs_cons_not lbraceC _ (by decide)]
    simp only [if_pos rfl]
    rw [skipWs_cons_not rbraceC _ (by decide)]
    rw [hu0]
    simp
  | cons kv fs' =>
    have hne : (kv :: fs' : List (String × JsVal)) ≠ [] := by simp
    have hjoin : renderUser u ++ rest =
        lbraceC :: '\n' :: (List.replicate 4 ' ' ++ fieldSeq (kv :: fs') rest) := by
      simp only [renderUser, hfs]
      rw [show (lbraceC :: '\n' ::
          (commaNlJoin ((kv :: fs').map fun kv => List.replicate 4 ' ' ++ renderField kv) ++
           '\n' :: (List.replicate 2 ' ' ++ [rbraceC]))) ++ rest =
        lbraceC :: '\n' ::
          (commaNlJoin ((kv :: fs').map fun kv => List.replicate 4 ' ' ++ renderField kv) ++
           '\n' :: (List.replicate 2 ' ' ++ rbraceC :: rest)) from by simp]
      rw [fieldsJoin_eq (kv :: fs') rest hne]
    rw [hjoin]
    have hhead : ∃ tl, fieldSeq (kv :: fs') rest = '"' :: tl := by
      obtain ⟨k, v⟩ := kv
      cases fs' with
      | nil =>
        refine ⟨(escConcat k.toList ++ ['"']) ++ ':' :: ' ' :: renderScalar v ++
          '\n' :: (List.replicate 2 ' ' ++ rbraceC :: rest), ?_⟩
        simp [fieldSeq, renderField, renderStr]
      | cons a b =>
        refine ⟨(escConcat k.toList ++ ['"']) ++ ':' :: ' ' :: renderScalar v ++
          ',' :: '\n' :: (List.replicate 4 ' ' ++ fieldSeq (a :: b) rest), ?_⟩
        simp [fieldSeq, renderField, renderStr]
    obtain ⟨tl, htl⟩ := hhead
    have hskip : skipWs ('\n' :: (List.replicate 4 ' ' ++ fieldSeq (kv :: fs') rest)) =
        fieldSeq (kv :: fs') rest := by
      have h0 := skipWs_append_ws ('\n' :: List.replicate 4 ' ')
        (fieldSeq (kv :: fs') rest) (ws_nl_rep 4)
      rw [show ('\n' :: List.replicate 4 ' ') ++ fieldSeq (kv :: fs') rest =
        '\n' :: (List.replicate 4 ' ' ++ fieldSeq (kv :: fs') rest) from by simp] at h0
      rw [h0, htl, skipWs_cons_not '"' _ (by decide), ← htl]
    simp only [parseUserObj]
    rw [skipWs_append_ws w _ hw, skipWs_cons_not lbraceC _ (by decide)]
    simp only [if_pos rfl]
    rw [hskip, htl]
    simp only [if_true, if_neg (show ¬ '"' = rbraceC by decide)]
    have hspec := parseFieldsAux_spec (kv :: fs')
      (('\n' :: (List.replicate 4 ' ' ++ fieldSeq (kv :: fs') rest)).length + 1)
      [] rest (by intro c hc; simp at hc) hne
      (by
        have := userFields_length u
        rw [hfs] at this
        simp only [List.length_cons, List.length_append, List.length_replicate] at this ⊢
        omega)
      (by
        intro kv2 hkv2
        exact userFields_safe u hu kv2 (by rw [hfs]; exact hkv2))
    rw [List.nil_append] at hspec
    rw [← htl]
    have hftu := fieldsToUser_userFields u hu
    rw [hfs] at hftu
    simp only [hspec, hftu]

/-- `renderUser` always begins with an opening brace. -/
theorem renderUser_head (u : JsUser) : ∃ tl, renderUser u = lbraceC :: tl := by
  cases hfs : userFields u with
  | nil => exact ⟨[rbraceC], by simp [renderUser, hfs]⟩
  | cons kv fs =>
    refine ⟨'\n' ::
      (commaNlJoin ((kv :: fs).map fun kv => List.replicate 4 ' ' ++ renderField kv) ++
       '\n' :: (List.replicate 2 ' ' ++ [rbraceC])), ?_⟩
    simp [renderUser, hfs]

/-- A rendered item list always begins with an opening brace. -/
theorem itemSeq_head (u : JsUser) (us : List JsUser) (rest : List Char) :
    ∃ tl, itemSeq (u :: us) rest = lbraceC :: tl := by
  obtain ⟨tl0, h0⟩ := renderUser_head u
  cases us with
  | nil => exact ⟨tl0 ++ '\n' :: ']' :: rest, by simp [itemSeq, h0]⟩
  | cons a b =>
    exact ⟨tl0 ++ ',' :: '\n' :: (List.replicate 2 ' ' ++ itemSeq (a :: b) rest),
      by simp [itemSeq, h0]⟩

/-- A rendered item list is at least as long as the item count. -/
theorem itemSeq_length (us : List JsUser) (rest : List Char) :
    us.length ≤ (itemSeq us rest).length := by
  induction us with
  | nil => simp [itemSeq]
  | cons u t ih =>
    obtain ⟨tl0, h0⟩ := renderUser_head u
    cases t with
    | nil =>
      rw [show itemSeq [u] rest = renderUser u ++ '\n' :: ']' :: rest from rfl, h0]
      simp
    | cons a b =>
      simp only [itemSeq, h0, List.length_cons, List.length_append,
        List.length_replicate] at ih ⊢
      omega

/-- Ventilating the comma-joined item renderings into the parser-facing
item sequence. -/
theorem itemsJoin_eq :
    ∀ (us : List JsUser) (rest : List Char), us ≠ [] →
      commaNlJoin (us.map fun u => List.replicate 2 ' ' ++ renderUser u) ++
        '\n' :: ']' :: rest =
      List.replicate 2 ' ' ++ itemSeq us rest := by
  intro us
  induction us with
  | nil => intro rest h; cases h rfl
  | cons u t ih =>
    intro rest _
    cases t with
    | nil => simp [commaNlJoin, itemSeq]
    | cons u2 t2 =>
      have hih := ih rest (by simp)
      simp only [List.map_cons, commaNlJoin, itemSeq, List.append_assoc,
        List.cons_append] at hih ⊢
      rw [hih]

/-- The item-list parser inverts a rendered item sequence, behind any
whitespace. -/
theorem parseItemsAux_spec :
    ∀ (us : List JsUser) (fuel : Nat) (w rest : List Char),
      (∀ c ∈ w, isWsCh c = true) → us ≠ [] → us.length ≤ fuel →
      jsonSafe us = true →
      parseItemsAux fuel (w ++ itemSeq us rest) = some (us, rest) := by
  intro us
  induction us with
  | nil => intro fuel w rest _ h; cases h rfl
  | cons u t ih =>
    intro fuel w rest hw _ hlen hsafe
    have hu : jsonSafeUser u = true := by
      simp only [jsonSafe, List.all_cons, Bool.and_eq_true] at hsafe
      exact hsafe.1
    cases fuel with
    | zero => simp at hlen
    | succ f =>
      cases t with
      | nil =>
        simp only [itemSeq, parseItemsAux]
        have hpo := parseUserObj_render w u ('\n' :: ']' :: rest) hw hu
        have hsw : skipWs ('\n' :: ']' :: rest) = ']' :: rest := by
          have h0 := skipWs_append_ws ['\n'] (']' :: rest) (ws_nl_rep 0)
          rw [show ['\n'] ++ (']' :: rest) = '\n' :: ']' :: rest from rfl] at h0
          rw [h0, skipWs_cons_not ']' _ (by decide)]
        simp only [hpo, hsw]
        simp only [if_neg (show ¬ ']' = ',' by decide)]
        rfl
      | cons u2 t2 =>
        simp only [itemSeq, parseItemsAux]
        have hpo := parseUserObj_render w u
          (',' :: '\n' :: (List.replicate 2 ' ' ++ itemSeq (u2 :: t2) rest)) hw hu
        have hsw := skipWs_cons_not ','
          ('\n' :: (List.replicate 2 ' ' ++ itemSeq (u2 :: t2) rest)) (by decide)
        simp only [hpo, hsw, if_pos rfl]
        have hih := ih f ('\n' :: List.replicate 2 ' ') rest (ws_nl_rep 2) (by simp)
          (by simp at hlen ⊢; omega)
          (by
            simp only [jsonSafe, List.all_cons, Bool.and_eq_true] at hsafe ⊢
            exact hsafe.2)
        rw [show '\n' :: (List.replicate 2 ' ' ++ itemSeq (u2 :: t2) rest) =
          ('\n' :: List.replicate 2 ' ') ++ itemSeq (u2 :: t2) rest from rfl]
        rw [hih]
        rfl

/-! ## The email matcher recognises exactly the regex language -/

/-- `takeWhile` stops exactly at the first failing element. -/
theorem takeWhile_all_not {α : Type} (p : α → Bool) (l r : List α) (x : α)
    (hl : ∀ c ∈ l, p c = true) (hx : p x = false) :
    (l ++ x :: r).takeWhile p = l := by
  induction l with
  | nil => simp [List.takeWhile_cons, hx]
  | cons a t ih =>
    simp only [List.cons_append, List.takeWhile_cons, hl a (by simp)]
    simp [ih fun c hc => hl c (by simp [hc])]

/-- `dropWhile` stops exactly at the first failing element. -/
theorem dropWhile_all_not {α : Type} (p : α → Bool) (l r : List α) (x : α)
    (hl : ∀ c ∈ l, p c = true) (hx : p x = false) :
    (l ++ x :: r).dropWhile p = x :: r := by
  induction l with
  | nil => simp [List.dropWhile_cons, hx]
  | cons a t ih =>
    simp only [List.cons_append, List.dropWhile_cons, hl a (by simp)]
    simp [ih fun c hc => hl c (by simp [hc])]

/-- `splitDot` always yields at least one segment. -/
theorem splitDot_ne_nil (cs : List Char) : splitDot cs ≠ [] := by
  induction cs with
  | nil => simp [splitDot]
  | cons c cs _ =>
    simp only [splitDot]
    split
    · simp
    · split <;> simp

/-- Two-or-more segment unfolding of `joinDots`. -/
theorem joinDots_cons₂ (s t : List Char) (ts : List (List Char)) :
    joinDots (s :: t :: ts) = s ++ '.' :: joinDots (t :: ts) := rfl

/-- `joinDots` undoes `splitDot`. -/
theorem joinDots_splitDot (cs : List Char) : joinDots (splitDot cs) = cs := by
  induction cs with
  | nil => rfl
  | cons c cs ih =>
    by_cases hc : c = '.'
    · subst hc
      have h1 : splitDot ('.' :: cs) = [] :: splitDot cs := by simp [splitDot]
      rw [h1]
      cases hsp : splitDot cs with
      | nil => exact absurd hsp (splitDot_ne_nil cs)
      | cons s ss =>
        rw [hsp] at ih
        rw [joinDots_cons₂]
        simp [ih]
    · cases hsp : splitDot cs with
      | nil => exact absurd hsp (splitDot_ne_nil cs)
      | cons s ss =>
        have h1 : splitDot (c :: cs) = (c :: s) :: ss := by simp [splitDot, hc, hsp]
        rw [h1]
        rw [hsp] at ih
        cases ss with
        | nil => simpa [joinDots] using congrArg (c :: ·) ih
        | cons t ts =>
          rw [joinDots_cons₂]
          rw [joinDots_cons₂] at ih
          simpa using congrArg (c :: ·) ih

/-- `splitDot` of a dot-free list is that single segment. -/
theorem splitDot_dotfree (g : List Char) (hg : ∀ c ∈ g, c ≠ '.') :
    splitDot g = [g] := by
  induction g with
  | nil => rfl
  | cons c t ih =>
    have h1 : splitDot t = [t] := ih fun c hc => hg c (by simp [hc])
    simp [splitDot, hg c (by simp), h1]

/-- `splitDot` peels a dot-free segment followed by a dot. -/
theorem splitDot_append_dot (g rest : List Char) (hg : ∀ c ∈ g, c ≠ '.') :
    splitDot (g ++ '.' :: rest) = g :: splitDot rest := by
  induction g with
  | nil => simp [splitDot]
  | cons c t ih =>
    have h1 := ih fun c hc => hg c (by simp [hc])
    simp only [List.cons_append, splitDot, List.append_eq]
    rw [if_neg (hg c (by simp)), h1]

/-- `joinDots` of `init ++ [t]` is the group/TLD decomposition shape. -/
theorem joinDots_concat (init : List (List Char)) (t : List Char) :
    joinDots (init ++ [t]) = (init.map fun g => g ++ ['.']).flatten ++ t := by
  induction init with
  | nil => simp [joinDots]
  | cons s ss ih =>
    cases hq : ss ++ [t] with
    | nil => simp at hq
    | cons a b =>
      rw [List.cons_append, hq, joinDots_cons₂, ← hq, ih]
      simp

/-- `splitDot` of the group/TLD decomposition recovers the segments. -/
theorem splitDot_groups (groups : List (List Char)) (tld : List Char)
    (hg : ∀ g ∈ groups, ∀ c ∈ g, c ≠ '.') (ht : ∀ c ∈ tld, c ≠ '.') :
    splitDot ((groups.map fun g => g ++ ['.']).flatten ++ tld) = groups ++ [tld] := by
  induction groups with
  | nil => simpa using splitDot_dotfree tld ht
  | cons g gs ih =>
    have h1 : ((g :: gs).map fun g => g ++ ['.']).flatten ++ tld =
        g ++ '.' :: ((gs.map fun g => g ++ ['.']).flatten ++ tld) := by
      simp
    rw [h1, splitDot_append_dot g _ (hg g (by simp)),
        ih fun x hx => hg x (by simp [hx])]
    rfl

/-- The anchored-regex matcher accepts exactly the strings of the
declarative pattern, for any TLD class that excludes the dot. -/
theorem emailMatchWith_iff (tldClass : Char → Bool) (hdot : tldClass '.' = false)
    (cs : List Char) :
    emailMatchWith tldClass cs = true ↔
      ∃ (loc : List Char) (groups : List (List Char)) (tld : List Char),
        cs = loc ++ '@' :: ((groups.map fun g => g ++ ['.']).flatten ++ tld) ∧
        loc ≠ [] ∧ (∀ c ∈ loc, localChar c = true) ∧
        groups ≠ [] ∧ (∀ g ∈ groups, g ≠ [] ∧ ∀ c ∈ g, domChar c = true) ∧
        (∀ c ∈ tld, tldClass c = true) ∧ 2 ≤ tld.length ∧ tld.length ≤ 4 := by
  constructor
  · intro hm
    simp only [emailMatchWith] at hm
    rcases hdw : cs.dropWhile localChar with _ | ⟨c, dom⟩
    · rw [hdw] at hm
      simp at hm
    · rw [hdw] at hm
      simp only [Bool.and_eq_true, decide_eq_true_eq, Bool.not_eq_true'] at hm
      obtain ⟨⟨hc, hne⟩, hdom⟩ := hm
      subst hc
      have hsplit : cs = cs.takeWhile localChar ++ '@' :: dom := by
        have h0 := (List.takeWhile_append_dropWhile localChar cs).symm
        rw [hdw] at h0
        exact h0
      simp only [matchDomainWith] at hdom
      rcases List.eq_nil_or_concat (splitDot dom) with hnil | ⟨init, t, hseg⟩
      · rw [hnil] at hdom
        simp at hdom
      · rw [List.concat_eq_append] at hseg
        rw [hseg, List.getLast?_concat, List.dropLast_concat] at hdom
        simp only [Bool.and_eq_true, decide_eq_true_eq, List.all_eq_true,
          List.length_append, List.length_singleton] at hdom
        obtain ⟨⟨hlen, hinit⟩, ⟨htall, ht2⟩, ht4⟩ := hdom
        refine ⟨cs.takeWhile localChar, init, t, ?_, ?_, ?_, ?_, ?_, ?_, ht2, ht4⟩
        · have hdomeq : dom = (init.map fun g => g ++ ['.']).flatten ++ t := by
            conv_lhs => rw [← joinDots_splitDot dom]
            rw [hseg, joinDots_concat]
          rw [← hdomeq]
          exact hsplit
        · intro h0
          rw [h0] at hne
          simp at hne
        · exact fun c hc => List.mem_takeWhile_imp hc
        · intro h0
          rw [h0] at hlen
          simp at hlen
        · intro g hgmem
          have := hinit g hgmem
          simp only [Bool.and_eq_true, Bool.not_eq_true', List.all_eq_true] at this
          refine ⟨?_, this.2⟩
          intro h0
          rw [h0] at this
          simp at this
        · exact htall
  · rintro ⟨loc, groups, tld, rfl, hne, hloc, hgne, hg, htld, h2, h4⟩
    have hdotT : ∀ c ∈ tld, c ≠ '.' := by
      intro c hc he
      subst he
      have := htld _ hc
      rw [hdot] at this
      exact absurd this (by simp)
    have hdotG : ∀ g ∈ groups, ∀ c ∈ g, c ≠ '.' := by
      intro g hgm c hc he
      subst he
      have := (hg g hgm).2 _ hc
      simp [domChar, isWordCharJs] at this
    have hAt : localChar '@' = false := by decide
    have htw := takeWhile_all_not localChar loc
      ((groups.map fun g => g ++ ['.']).flatten ++ tld) '@' hloc hAt
    have hdw := dropWhile_all_not localChar loc
      ((groups.map fun g => g ++ ['.']).flatten ++ tld) '@' hloc hAt
    simp only [emailMatchWith, hdw, htw]
    simp only [Bool.and_eq_true, decide_eq_true_eq, Bool.not_eq_true']
    refine ⟨⟨trivial, by simpa using hne⟩, ?_⟩
    simp only [matchDomainWith]
    rw [splitDot_groups groups tld hdotG hdotT]
    rw [List.getLast?_concat, List.dropLast_concat]
    simp only [Bool.and_eq_true, decide_eq_true_eq, List.all_eq_true,
      List.length_append, List.length_singleton]
    refine ⟨⟨?_, ?_⟩, ⟨htld, h2⟩, h4⟩
    · have : 1 ≤ groups.length := by
        cases groups with
        | nil => exact absurd rfl hgne
        | cons a b => simp
      omega
    · intro s hs
      have := hg s hs
      simp only [Bool.and_eq_true, Bool.not_eq_true', List.all_eq_true]
      exact ⟨by simpa using this.1, this.2⟩

/-! ## Claim theorems -/

/-- C1, counterexample.  For the collection `[{id:1,name:"Camilo",email:"camilo@example.com"}]`,
a PUT `/users/1` with body `{name:"Cami"}` does NOT respond 200: the handler
validates the partial payload itself, whose missing `email` destructures to
`undefined` and fails `isValidEmail`, so it responds 400 with the
email-format message and writes nothing. -/
theorem put_partial_name_body_responds_400 :
    putUsers "1" (some ⟨none, some (JsVal.str "Cami"), none⟩)
        (some [⟨some (JsVal.num 1), some (JsVal.str "Camilo"),
               some (JsVal.str "camilo@example.com")⟩]) =
      ⟨400, RespBody.errJson emailErrorMsg, none⟩ ∧
    (putUsers "1" (some ⟨none, some (JsVal.str "Cami"), none⟩)
        (some [⟨some (JsVal.num 1), some (JsVal.str "Camilo"),
               some (JsVal.str "camilo@example.com")⟩])).status ≠ 200 := by
  decide

/-- C1, amended.  On the collection `[{id:1,name:"Camilo",email:"camilo@example.com"}]`:
a PUT `/users/1` with body `{name:"Cami"}` responds 400 with the
email-format message and the backing document is not written; a PUT
`/users/1` whose body carries the full record `{id:1,name:"Cami",email:"camilo@example.com"}`
responds 200 with the submitted payload as body, and the stored record
becomes the shallow merge `{id:1,name:"Cami",email:"camilo@example.com"}`,
keyed by `id` equality. -/
theorem put_update_scenario :
    putUsers "1" (some ⟨none, some (JsVal.str "Cami"), none⟩)
        (some [⟨some (JsVal.num 1), some (JsVal.str "Camilo"),
               some (JsVal.str "camilo@example.com")⟩]) =
      ⟨400, RespBody.errJson emailErrorMsg, none⟩ ∧
    putUsers "1"
        (some ⟨some (JsVal.num 1), some (JsVal.str "Cami"),
               some (JsVal.str "camilo@example.com")⟩)
        (some [⟨some (JsVal.num 1), some (JsVal.str "Camilo"),
               some (JsVal.str "camilo@example.com")⟩]) =
      ⟨200,
       RespBody.userJson ⟨some (JsVal.num 1), some (JsVal.str "Cami"),
                          some (JsVal.str "camilo@example.com")⟩,
       some [⟨some (JsVal.num 1), some (JsVal.str "Cami"),
             some (JsVal.str "camilo@example.com")⟩]⟩ := by
  decide

/-- C2, counterexample.  The JS number `5.5` is not an integer, and the
empty collection contains no record with that id, yet
`isUniqueNumericId(5.5, [])` returns `true`: the code only checks
`typeof id === 'number'`, which holds for every number, integral or not. -/
theorem isUniqueNumericId_float_true :
    fiveAndAHalf.den ≠ 1 ∧
    isUniqueNumericId (JsVal.num fiveAndAHalf) [] = true := by
  decide

/-- C2, amended.  For every id whose runtime type is not `number` (for
example the string `"5"`) and every collection, `isUniqueNumericId`
returns `false`, even when no record of the collection has that id value;
a non-integral number such as `5.5` passes the `typeof` check and is
reported unique whenever no record carries it. -/
theorem isUniqueNumericId_non_number :
    (∀ (id : JsVal) (users : List JsUser),
       jsTypeof id ≠ "number" → isUniqueNumericId id users = false) ∧
    isUniqueNumericId (JsVal.str "5") [] = false ∧
    isUniqueNumericId (JsVal.num fiveAndAHalf) [] = true := by
  refine ⟨?_, by decide, by decide⟩
  intro id users h
  cases id with
  | num q => exact absurd rfl h
  | nan => exact absurd rfl h
  | str s => rfl
  | undef => rfl
  | null => rfl

/-- C2, witness for the amended theorem. -/
theorem isUniqueNumericId_non_number_witness :
    isUniqueNumericId (JsVal.str "5") [] = false :=
  isUniqueNumericId_non_number.1 (JsVal.str "5") [] (by decide)

/-- C3.  `validateUser` runs name, then email, then id-uniqueness, and
returns on the first failure with one of three fixed messages: every
result is one of the four fixed values; a candidate whose name is a string
shorter than 3 characters always gets the name-length message, whatever
its email and id; a candidate with a valid name and an invalid email
always gets the email-format message. -/
theorem validateUser_check_order :
    ∀ (user : JsUser) (users : List JsUser) (uid : JsVal),
      (validateUser user users uid = ⟨true, none⟩ ∨
       validateUser user users uid = ⟨false, some nameErrorMsg⟩ ∨
       validateUser user users uid = ⟨false, some emailErrorMsg⟩ ∨
       validateUser user users uid = ⟨false, some idErrorMsg⟩) ∧
      (∀ s : String, fieldOrUndef user.name = JsVal.str s → s.length < 3 →
         validateUser user users uid = ⟨false, some nameErrorMsg⟩) ∧
      (isValidName (fieldOrUndef user.name) = true →
       isValidEmail (fieldOrUndef user.email) = false →
         validateUser user users uid = ⟨false, some emailErrorMsg⟩) := by
  intro user users uid
  refine ⟨?_, ?_, ?_⟩
  · simp only [validateUser]
    split
    · right; left; rfl
    · split
      · right; right; left; rfl
      · split
        · right; right; right; rfl
        · left; rfl
  · intro s hs hlen
    have hname : isValidName (fieldOrUndef user.name) = false := by
      rw [hs]
      simp only [isValidName, decide_eq_false_iff_not]
      omega
    simp [validateUser, hname]
  · intro h1 h2
    simp [validateUser, h1, h2]

/-- C3, witness: a candidate with the two-character name `"Al"`, a bad
email and a clashing id gets the name-length message. -/
theorem validateUser_check_order_witness :
    validateUser ⟨some (JsVal.num 7), some (JsVal.str "Al"), some (JsVal.str "bad")⟩
        [] JsVal.undef = ⟨false, some nameErrorMsg⟩ :=
  (validateUser_check_order _ [] JsVal.undef).2.1 "Al" rfl (by decide)

/-- C4.  POSTing a body whose `id` is the number 1 (with valid name and
email) to a collection that already contains a record with id 1 responds
400 with the id-uniqueness message, and nothing is written to the backing
document. -/
theorem post_duplicate_id_responds_400 :
    ∀ (body : JsUser) (users : List JsUser),
      body.id = some (JsVal.num 1) →
      isValidName (fieldOrUndef body.name) = true →
      isValidEmail (fieldOrUndef body.email) = true →
      (users.any fun u => jsEq (fieldOrUndef u.id) (JsVal.num 1)) = true →
      postUsers body (some users) = ⟨400, RespBody.errJson idErrorMsg, none⟩ := by
  intro body users hid hn he hany
  simp only [fieldOrUndef] at hn he
  have huniq : isUniqueNumericId (JsVal.num 1) users = false := by
    simp only [isUniqueNumericId]
    rw [hany]
    rfl
  have hv : validateUser body users JsVal.undef = ⟨false, some idErrorMsg⟩ := by
    simp only [validateUser, fieldOrUndef, hid, Option.getD_some]
    simp [hn, he, huniq, jsEq]
  simp [postUsers, hv]

/-- C4, witness: the concrete duplicate-id scenario from the spec. -/
theorem post_duplicate_id_responds_400_witness :
    postUsers ⟨some (JsVal.num 1), some (JsVal.str "Pedro"),
               some (JsVal.str "pedro@example.com")⟩
        (some [⟨some (JsVal.num 1), some (JsVal.str "Camilo"),
               some (JsVal.str "camilo@example.com")⟩]) =
      ⟨400, RespBody.errJson idErrorMsg, none⟩ :=
  post_duplicate_id_responds_400 _ _ rfl (by decide) (by decide) (by decide)

/-- C5, code bug.  The source registers the centralized responder
before every route (`app.use(errorHandler)` at src/app.js:57, routes at
src/app.js:88-374), and Express hands a forwarded error only to error
middleware registered after the raising layer: the only layer after
`GET /error` is the `GET /db-users` route, so the error the route
forwards never reaches `errorHandler` and Express's built-in final
handler answers with its plain HTML 500 page — not the claimed JSON
envelope.  Had any error middleware followed the route, the responder
would produce exactly the claimed envelope (HTTP 500, body
`{status:"error", statusCode:500, message:"Error intencional"}`, stack
only under `NODE_ENV === 'development'`), so the claim describes the
responder's intended behavior and the registration order is the bug. -/
theorem error_route_bypasses_centralized_responder :
    layersAfter "GET /error" appStack = [AppLayer.handler "GET /db-users"] ∧
    (∀ (stack : Option String) (nodeEnv : String),
      dispatchError (layersAfter "GET /error" appStack)
          (errorRouteError stack) nodeEnv =
        DispatchedError.byDefaultHtml500) ∧
    (∀ (stack : Option String) (nodeEnv : String),
      dispatchError (AppLayer.errorWare errorHandler ::
            layersAfter "GET /error" appStack)
          (errorRouteError stack) nodeEnv =
        DispatchedError.byMiddleware ⟨500, ⟨"error", 500, "Error intencional",
          if nodeEnv = "development" then stack else none⟩⟩) :=
  ⟨rfl, fun _ _ => rfl, fun _ _ => rfl⟩

/-- C6.  When the path id segment parses to `NaN` (every non-numeric
segment), the update handler never changes a stored record — whatever it
writes equals the stored collection, and in its success case (status 200)
it writes the collection unchanged — and the delete handler removes
nothing and responds 204 with an empty body. -/
theorem nan_path_id_matches_nothing :
    ∀ (idSeg : String) (body : Option JsUser) (users : List JsUser),
      parseIntB10 idSeg = JsVal.nan →
      (∀ w, (putUsers idSeg body (some users)).written = some w → w = users) ∧
      ((putUsers idSeg body (some users)).status = 200 →
        (putUsers idSeg body (some users)).written = some users) ∧
      deleteUsers idSeg (some users) = ⟨204, RespBody.emptyBody, some users⟩ := by
  intro seg body users h
  have hdel : deleteUsers seg (some users) = ⟨204, RespBody.emptyBody, some users⟩ := by
    simp [deleteUsers, h, filter_nan_id]
  have hcase : (putUsers seg body (some users)).written = none ∨
      putUsers seg body (some users) =
        ⟨200, (putUsers seg body (some users)).body, some users⟩ := by
    cases body with
    | none => left; rfl
    | some u =>
      by_cases hk : userNoKeys u = true
      · left; simp [putUsers, hk]
      · rw [Bool.not_eq_true] at hk
        by_cases hv : (validateUser u users (parseIntB10 seg)).isValid = true
        · rw [h] at hv
          right; simp [putUsers, hk, hv, h, map_nan_id]
        · rw [Bool.not_eq_true, h] at hv
          left; simp [putUsers, hk, hv, h]
  refine ⟨?_, ?_, hdel⟩
  · intro w hw
    rcases hcase with h1 | h1
    · rw [h1] at hw; exact absurd hw (by simp)
    · rw [h1] at hw
      simpa using hw.symm
  · intro hst
    rcases hcase with h1 | h1
    · cases body with
      | none => exact absurd hst (by simp [putUsers])
      | some u =>
        by_cases hk : userNoKeys u = true
        · exact absurd hst (by simp [putUsers, hk])
        · rw [Bool.not_eq_true] at hk
          by_cases hv : (validateUser u users (parseIntB10 seg)).isValid = true
          · rw [h] at hv
            simp [putUsers, hk, hv, h, map_nan_id]
          · rw [Bool.not_eq_true, h] at hv
            exact absurd hst (by simp [putUsers, hk, hv, h])
    · rw [h1]

/-- C6, witness: the non-numeric segment `"abc"` with a concrete
collection; the delete handler keeps the record and responds 204. -/
theorem nan_path_id_matches_nothing_witness :
    deleteUsers "abc" (some [⟨some (JsVal.num 1), some (JsVal.str "Camilo"),
                             some (JsVal.str "camilo@example.com")⟩]) =
      ⟨204, RespBody.emptyBody,
       some [⟨some (JsVal.num 1), some (JsVal.str "Camilo"),
             some (JsVal.str "camilo@example.com")⟩]⟩ :=
  (nan_path_id_matches_nothing "abc" none _ (by decide)).2.2

/-- C8.  A PUT `/users/:id` whose body is absent or an empty object
responds 500 (not 400) with an error message; the response does not
depend on the backing document (the same result for every `disk`,
including a failing read) and nothing is written. -/
theorem put_empty_body_responds_500 :
    ∀ (idSeg : String) (body : Option JsUser) (disk : Option (List JsUser)),
      (body = none ∨ ∃ u, body = some u ∧ userNoKeys u = true) →
      putUsers idSeg body disk = ⟨500, RespBody.errJson noDataMsg, none⟩ := by
  intro seg body disk h
  rcases h with h | ⟨u, rfl, hu⟩
  · subst h; rfl
  · simp [putUsers, hu]

/-- C8, witness: an empty body object with a healthy backing document. -/
theorem put_empty_body_responds_500_witness :
    putUsers "1" (some ⟨none, none, none⟩) (some []) =
      ⟨500, RespBody.errJson noDataMsg, none⟩ :=
  put_empty_body_responds_500 "1" (some ⟨none, none, none⟩) (some [])
    (Or.inr ⟨⟨none, none, none⟩, rfl, rfl⟩)

/-- C10.  A candidate with valid name and email and no `id` field
validates against every collection when `validateUser` is called without
an `idBeingUpdated` argument (the missing id and the omitted parameter are
both `undefined`, so `id !== userIdBeingUpdated` is false and the
uniqueness check is skipped), and the Create handler appends the id-less
record. -/
theorem validateUser_missing_id_valid :
    ∀ (user : JsUser) (users : List JsUser),
      user.id = none →
      isValidName (fieldOrUndef user.name) = true →
      isValidEmail (fieldOrUndef user.email) = true →
      validateUser user users JsVal.undef = ⟨true, none⟩ ∧
      postUsers user (some users) =
        ⟨201, RespBody.userJson user, some (users ++ [user])⟩ := by
  intro u users hid hn he
  simp only [fieldOrUndef] at hn he
  have hv : validateUser u users JsVal.undef = ⟨true, none⟩ := by
    simp only [validateUser, fieldOrUndef, hid]
    simp [hn, he, jsEq]
  exact ⟨hv, by simp [postUsers, hv]⟩

/-- C10, witness: a concrete id-less candidate is appended. -/
theorem validateUser_missing_id_valid_witness :
    postUsers ⟨none, some (JsVal.str "Ana"), some (JsVal.str "ana@mail.co")⟩
        (some [⟨some (JsVal.num 1), some (JsVal.str "Camilo"),
               some (JsVal.str "camilo@example.com")⟩]) =
      ⟨201, RespBody.userJson ⟨none, some (JsVal.str "Ana"), some (JsVal.str "ana@mail.co")⟩,
       some [⟨some (JsVal.num 1), some (JsVal.str "Camilo"),
             some (JsVal.str "camilo@example.com")⟩,
            ⟨none, some (JsVal.str "Ana"), some (JsVal.str "ana@mail.co")⟩]⟩ :=
  (validateUser_missing_id_valid _ _ rfl (by decide) (by decide)).2

/-- C9, counterexample.  The source regex ends in `[\w-]{2,4}$`, whose
class also contains the hyphen: `"a@b.--"` is accepted by `isValidEmail`
but does not match the claimed pattern, whose TLD is restricted to word
characters. -/
theorem isValidEmail_hyphen_tld_counterexample :
    isValidEmail (JsVal.str "a@b.--") = true ∧
    ¬ emailPatternWith isWordCharJs "a@b.--" := by
  refine ⟨by decide, ?_⟩
  intro hpat
  have h2 : emailMatchWith isWordCharJs ("a@b.--".toList) = true :=
    (emailMatchWith_iff isWordCharJs (by decide) ("a@b.--".toList)).mpr hpat
  exact absurd h2 (by decide)

/-- C9, amended.  `isValidEmail` returns true exactly for the strings
matching `<word-chars-dots-hyphens>+@(<word-chars-hyphens>+\.)+<TLD of 2–4
word-or-hyphen characters>`; in particular it returns false for
`"no-at-sign"` and for `"a@b"` (domain without a dot), so `validateUser`
reports the email-format message for such inputs given a valid name. -/
theorem isValidEmail_iff_pattern :
    (∀ s : String, isValidEmail (JsVal.str s) = true ↔ emailPatternWith domChar s) ∧
    isValidEmail (JsVal.str "no-at-sign") = false ∧
    isValidEmail (JsVal.str "a@b") = false ∧
    (∀ (users : List JsUser) (uid : JsVal) (idv : Option JsVal),
      validateUser ⟨idv, some (JsVal.str "Cami"), some (JsVal.str "a@b")⟩ users uid =
        ⟨false, some emailErrorMsg⟩) := by
  refine ⟨?_, by decide, by decide, ?_⟩
  · intro s
    exact emailMatchWith_iff domChar (by decide) s.toList
  · intro users uid idv
    rfl

/-- C9, witness: the amended theorem applied at a concrete collection. -/
theorem isValidEmail_iff_pattern_witness :
    validateUser ⟨none, some (JsVal.str "Cami"), some (JsVal.str "a@b")⟩ [] JsVal.undef =
      ⟨false, some emailErrorMsg⟩ :=
  isValidEmail_iff_pattern.2.2.2 [] JsVal.undef none

/-- C7.  Serialisation followed by deserialisation is the identity on
JSON-representable collections: for every collection of user records
whose present field values are JSON values (no `NaN`, no explicit
`undefined` — the only values `JSON.stringify` cannot echo back),
`loadAll` applied to `saveAll` of the collection recovers exactly the
same records with the same field values, in the same order. -/
theorem saveAll_loadAll_roundtrip (users : List JsUser)
    (h : jsonSafe users = true) :
    loadAll (saveAll users) = some users := by
  cases users with
  | nil => decide
  | cons u t =>
    have hne : (u :: t : List JsUser) ≠ [] := by simp
    have hdoc : saveAll (u :: t) = ⟨'[' :: '\n' ::
        (List.replicate 2 ' ' ++ itemSeq (u :: t) [])⟩ := by
      simp only [saveAll]
      exact congrArg (fun l => (⟨'[' :: '\n' :: l⟩ : String))
        (itemsJoin_eq (u :: t) [] hne)
    obtain ⟨tl0, htl0⟩ := itemSeq_head u t []
    rw [hdoc]
    simp only [loadAll]
    rw [show String.toList
        (⟨'[' :: '\n' :: (List.replicate 2 ' ' ++ itemSeq (u :: t) [])⟩ : String) =
      '[' :: '\n' :: (List.replicate 2 ' ' ++ itemSeq (u :: t) []) from rfl]
    rw [skipWs_cons_not '[' _ (by decide)]
    simp only [if_pos rfl]
    have hskip : skipWs ('\n' :: (List.replicate 2 ' ' ++ itemSeq (u :: t) [])) =
        itemSeq (u :: t) [] := by
      have h0 := skipWs_append_ws ('\n' :: List.replicate 2 ' ')
        (itemSeq (u :: t) []) (ws_nl_rep 2)
      rw [show ('\n' :: List.replicate 2 ' ') ++ itemSeq (u :: t) [] =
        '\n' :: (List.replicate 2 ' ' ++ itemSeq (u :: t) []) from by simp] at h0
      rw [h0, htl0, skipWs_cons_not lbraceC _ (by decide), ← htl0]
    rw [hskip, htl0]
    simp only [if_true, if_neg (show ¬lbraceC = ']' by decide)]
    rw [← htl0]
    have hspec := parseItemsAux_spec (u :: t)
      (('\n' :: (List.replicate 2 ' ' ++ itemSeq (u :: t) [])).length + 1)
      [] [] (by intro c hc; simp at hc) hne
      (by
        have h1 := itemSeq_length (u :: t) ([] : List Char)
        simp only [List.length_cons, List.length_append, List.length_replicate] at h1 ⊢
        omega)
      h
    rw [List.nil_append] at hspec
    simp only [hspec]
    rfl

/-- C7, witness: the round trip evaluated at the concrete seed
collection. -/
theorem saveAll_loadAll_roundtrip_witness :
    jsonSafe [⟨some (JsVal.num 1), some (JsVal.str "Camilo"),
      some (JsVal.str "camilo@example.com")⟩] = true ∧
    loadAll (saveAll [⟨some (JsVal.num 1), some (JsVal.str "Camilo"),
      some (JsVal.str "camilo@example.com")⟩]) =
      some [⟨some (JsVal.num 1), some (JsVal.str "Camilo"),
        some (JsVal.str "camilo@example.com")⟩] :=
  ⟨by decide, saveAll_loadAll_roundtrip _ (by decide)⟩
